import Mathlib

/-!
Cache simulator (`src/cachesim.cpp`)

A shallow embedding of the `CacheSimulator` class and of the driver loop of `main`.

* C++ `int` values are modelled by `Int`, the `unsigned int` address by `Nat`.
* The four `std::vector<int>` members are `List Int`; an access outside a vector is undefined
  behaviour in C++, and is modelled by the result `none`.
* Statistics counters: `update_statistics_int` is the method on C++ `int` counters, a signed
  overflow being undefined (`none`); `update_statistics` is the same method with the counters taken
  as exact integers, for the statements that say so.
-/

set_option autoImplicit false

/-! ## Machine-integer helpers -/

/-- Conversion `unsigned int → int` (two's complement reinterpretation of the low 32 bits). -/
def toInt32 (n : Nat) : Int :=
  if n % 4294967296 < 2147483648 then ((n % 4294967296 : Nat) : Int)
  else ((n % 4294967296 : Nat) : Int) - 4294967296

/-- Conversion `int → unsigned int` (reduction modulo `2^32`). -/
def toUInt32 (z : Int) : Nat := (z % 4294967296).toNat

/-- Truncation of `std::log2(x)` to `int` for a positive `x`, by repeated halving;
the first argument bounds the number of halvings. -/
def log2Fuel : Nat → Nat → Nat
  | 0, _ => 0
  | fuel + 1, n => if n < 2 then 0 else log2Fuel fuel (n / 2) + 1

/-- The value `(int) std::log2(x)` for a positive `int` `x`. -/
def ilog2 (x : Int) : Int := (log2Fuel 32 x.toNat : Nat)

/-- Read `vec[i]`; `none` when `i` is outside the vector. -/
def rd (vec : List Int) (i : Int) : Option Int :=
  if 0 ≤ i then vec[i.toNat]? else none

/-- Write `vec[i] = x`; `none` when `i` is outside the vector. -/
def wr (vec : List Int) (i : Int) (x : Int) : Option (List Int) :=
  if 0 ≤ i ∧ i.toNat < vec.length then some (vec.set i.toNat x) else none

/-! ## The simulator state -/

/-- The data members of `class CacheSimulator`. -/
structure CacheSimulator where
  associativity : Int
  blocksize_byte : Int
  cachesize_kb : Int
  miss_penalty : Int
  dirty_write_penalty : Int
  num_blocks : Int
  num_sets : Int
  num_offset_bits : Int
  num_index_bits : Int
  tag_mask : Int
  tags : List Int
  valid : List Int
  priority : List Int
  dirty : List Int
  stat_instructions : Int
  stat_cycles : Int
  stat_memory_accesses : Int
  stat_dirty_evictions : Int
  stat_load_misses : Int
  stat_store_misses : Int
  stat_load_hits : Int
  stat_store_hits : Int
  deriving DecidableEq

/-- The constructor `CacheSimulator(a, bs, cs, mp, dwp)`.  The first argument is the value of the
file-level variable `blocksize_bytes`, which lines 64 and 66 read (the member is spelled
`blocksize_byte`).  The result is `none` where the C++ is undefined or throws: signed overflow of
`1024 * cachesize_kb`, division by zero, `log2` of a non-positive value converted to `int`, and
`resize` with a negative size. -/
def CacheSimulator.construct (blocksize_bytes : Int) (a bs cs mp dwp : Int) :
    Option CacheSimulator :=
  if 1024 * cs < -2147483648 ∨ 2147483647 < 1024 * cs then none
  else if blocksize_bytes = 0 ∨ a = 0 then none
  else
    let num_blocks := Int.tdiv (1024 * cs) blocksize_bytes
    let num_sets := Int.tdiv num_blocks a
    if blocksize_bytes ≤ 0 ∨ num_sets ≤ 0 then none
    else if num_blocks < 0 then none
    else
      let num_offset_bits := ilog2 blocksize_bytes
      let num_index_bits := ilog2 num_sets
      some
        { associativity := a
          blocksize_byte := bs
          cachesize_kb := cs
          miss_penalty := mp
          dirty_write_penalty := dwp
          num_blocks := num_blocks
          num_sets := num_sets
          num_offset_bits := num_offset_bits
          num_index_bits := num_index_bits
          tag_mask := num_index_bits + num_offset_bits
          tags := List.replicate num_blocks.toNat 0
          valid := List.replicate num_blocks.toNat 0
          priority := List.replicate num_blocks.toNat 0
          dirty := List.replicate num_blocks.toNat 0
          stat_instructions := 0
          stat_cycles := 0
          stat_memory_accesses := 0
          stat_dirty_evictions := 0
          stat_load_misses := 0
          stat_store_misses := 0
          stat_load_hits := 0
          stat_store_hits := 0 }

/-! ## Address decomposition -/

/-- The method `get_index_bits`: `(address >> num_offset_bits) & (num_blocks - 1)`, returned as
`int`.  A shift count outside `[0, 32)` is undefined: `none`. -/
def CacheSimulator.get_index_bits (c : CacheSimulator) (address : Nat) : Option Int :=
  if 0 ≤ c.num_offset_bits ∧ c.num_offset_bits < 32 then
    some (toInt32 ((address >>> c.num_offset_bits.toNat) &&& toUInt32 (c.num_blocks - 1)))
  else none

/-- The method `get_tag_bits`: `address >> tag_mask`, returned as `int`.  A shift count outside
`[0, 32)` is undefined: `none`. -/
def CacheSimulator.get_tag_bits (c : CacheSimulator) (address : Nat) : Option Int :=
  if 0 ≤ c.tag_mask ∧ c.tag_mask < 32 then some (toInt32 (address >>> c.tag_mask.toNat))
  else none

/-! ## Victim selection -/

/-- The loop of `std::max_element` over `count` further elements: `first` is the element under
inspection, `largest` the position of the first largest element seen so far. -/
def maxElementFrom (vec : List Int) : Nat → Nat → Nat → Nat
  | 0, _, largest => largest
  | count + 1, first, largest =>
    if vec.getD largest 0 < vec.getD first 0 then maxElementFrom vec count (first + 1) first
    else maxElementFrom vec count (first + 1) largest

/-- The method `max_element_index(vec, start_index, offset)`: `-1` on the guarded inputs, else the
position of the first largest element of `vec[start_index .. start_index + offset)`; `none` when
that slice runs past the end of the vector. -/
def max_element_index (vec : List Int) (start_index offset : Int) : Option Int :=
  if start_index < 0 ∨ (vec.length : Int) ≤ start_index ∨ offset ≤ 0 then some (-1)
  else if (vec.length : Int) < start_index + offset then none
  else
    some ((maxElementFrom vec (offset.toNat - 1) (start_index.toNat + 1) start_index.toNat : Nat) : Int)

/-! ## The access operation -/

/-- Values of the locals `invalid_index`, `hit_index`, `hit` after the scan loop, with the `dirty`
vector as the loop leaves it. -/
structure ScanOut where
  invalid_index : Int
  hit_index : Int
  hit : Bool
  dirty : List Int
  deriving DecidableEq

/-- The scan loop of `instruction` (lines 87-108), with `n` iterations left, loop variable `i` and
the current value `inv` of `invalid_index`. -/
def scanLoop (valid tags dirty : List Int) (type tag : Int) : Nat → Int → Int → Option ScanOut
  | 0, _, inv => some ⟨inv, -1, false, dirty⟩
  | n + 1, i, inv =>
    match rd valid i with
    | none => none
    | some v =>
      if v = 0 then scanLoop valid tags dirty type tag n (i + 1) i
      else
        match rd tags i with
        | none => none
        | some t =>
          if t ≠ tag then scanLoop valid tags dirty type tag n (i + 1) inv
          else
            match rd dirty i with
            | none => none
            | some d =>
              match wr dirty i (Int.lor d type) with
              | none => none
              | some dirty1 => some ⟨inv, i, true, dirty1⟩

/-- Values of `valid`, `dirty`, `tags`, `new_index` and `dirty_writeback` after the miss branch. -/
structure RefillOut where
  valid : List Int
  dirty : List Int
  tags : List Int
  new_index : Int
  dirty_writeback : Bool
  deriving DecidableEq

/-- The miss branch of `instruction` (lines 115-131). -/
def refill (valid dirty tags priority : List Int) (type tag index associativity invalid_index : Int) :
    Option RefillOut :=
  if 0 ≤ invalid_index then
    match wr valid invalid_index 1 with
    | none => none
    | some valid1 =>
      match wr dirty invalid_index type with
      | none => none
      | some dirty1 =>
        match wr tags invalid_index tag with
        | none => none
        | some tags1 => some ⟨valid1, dirty1, tags1, invalid_index, false⟩
  else
    match max_element_index priority index associativity with
    | none => none
    | some new_index =>
      match rd dirty new_index with
      | none => none
      | some d =>
        match wr dirty new_index type with
        | none => none
        | some dirty1 =>
          match wr tags new_index tag with
          | none => none
          | some tags1 => some ⟨valid, dirty1, tags1, new_index, decide (d ≠ 0)⟩

/-- The priority loop of `instruction` (lines 134-140), with `n` iterations left: every iteration
compares and increments `priority[index]`. -/
def priorityLoop (index new_index : Int) : Nat → List Int → Option (List Int)
  | 0, priority => some priority
  | n + 1, priority =>
    match rd priority index, rd priority new_index with
    | some p, some q =>
      if p < q then
        match wr priority index (p + 1) with
        | none => none
        | some priority1 => priorityLoop index new_index n priority1
      else priorityLoop index new_index n priority
    | _, _ => none

/-- The method `instruction(type, address)` with the final value of the local `new_index` added to
its result `(hit, dirty_writeback)`. -/
def CacheSimulator.instructionCore (c : CacheSimulator) (type : Int) (address : Nat) :
    Option (CacheSimulator × Bool × Bool × Int) :=
  match c.get_index_bits address, c.get_tag_bits address with
  | some index, some tag =>
    match scanLoop c.valid c.tags c.dirty type tag c.associativity.toNat index (-1) with
    | none => none
    | some s =>
      match (if s.hit then some ⟨c.valid, s.dirty, c.tags, s.hit_index, false⟩
             else refill c.valid s.dirty c.tags c.priority type tag index c.associativity
               s.invalid_index) with
      | none => none
      | some r =>
        match priorityLoop index r.new_index c.associativity.toNat c.priority with
        | none => none
        | some priority1 =>
          match wr priority1 r.new_index 1 with
          | none => none
          | some priority2 =>
            some ({ c with valid := r.valid, dirty := r.dirty, tags := r.tags,
                           priority := priority2 },
                  s.hit, r.dirty_writeback, r.new_index)
  | _, _ => none

/-- The method `instruction(type, address)`: the new state and the tuple
`(hit, dirty_writeback)`. -/
def CacheSimulator.instruction (c : CacheSimulator) (type : Int) (address : Nat) :
    Option (CacheSimulator × Bool × Bool) :=
  (c.instructionCore type address).map fun r => (r.1, r.2.1, r.2.2.1)

/-! ## Statistics -/

/-- The method `update_statistics(itype, icount, hit, dirty_writeback)` with the counters taken as
exact integers (no overflow). -/
def CacheSimulator.update_statistics (c : CacheSimulator) (itype icount : Int)
    (hit dirty_writeback : Bool) : CacheSimulator :=
  let c1 := { c with stat_cycles := c.stat_cycles + icount
                     stat_instructions := c.stat_instructions + icount
                     stat_memory_accesses := c.stat_memory_accesses + 1 }
  let c2 :=
    if hit then
      if itype ≠ 0 then { c1 with stat_store_hits := c1.stat_store_hits + 1 }
      else { c1 with stat_load_hits := c1.stat_load_hits + 1 }
    else
      let c1m :=
        if itype ≠ 0 then { c1 with stat_store_misses := c1.stat_store_misses + 1 }
        else { c1 with stat_load_misses := c1.stat_load_misses + 1 }
      { c1m with stat_cycles := c1m.stat_cycles + c1m.miss_penalty }
  if dirty_writeback then
    { c2 with stat_cycles := c2.stat_cycles + c2.dirty_write_penalty
              stat_dirty_evictions := c2.stat_dirty_evictions + 1 }
  else c2

/-! ## Statistics on `int` counters -/

/-- The value lies in the range of a C++ `int` (32 bits). -/
def InInt32 (z : Int) : Prop := -2147483648 ≤ z ∧ z ≤ 2147483647

/-- The sum `x + y` of two `int` values; a signed overflow is undefined: `none`. -/
def addInt32 (x y : Int) : Option Int :=
  if -2147483648 ≤ x + y ∧ x + y ≤ 2147483647 then some (x + y) else none

/-- The two's complement value that a wrapping 32-bit machine leaves for the exact value `z`. -/
def wrapInt32 (z : Int) : Int := toInt32 (toUInt32 z)

/-- The statement `stat_cycles += y`. -/
def CacheSimulator.addCycles (c : CacheSimulator) (y : Int) : Option CacheSimulator :=
  (addInt32 c.stat_cycles y).map fun v => { c with stat_cycles := v }

/-- The statement `stat_instructions += y`. -/
def CacheSimulator.addInstructions (c : CacheSimulator) (y : Int) : Option CacheSimulator :=
  (addInt32 c.stat_instructions y).map fun v => { c with stat_instructions := v }

/-- The statement `stat_memory_accesses++`. -/
def CacheSimulator.incrMemoryAccesses (c : CacheSimulator) : Option CacheSimulator :=
  (addInt32 c.stat_memory_accesses 1).map fun v => { c with stat_memory_accesses := v }

/-- The statement `stat_store_hits++`. -/
def CacheSimulator.incrStoreHits (c : CacheSimulator) : Option CacheSimulator :=
  (addInt32 c.stat_store_hits 1).map fun v => { c with stat_store_hits := v }

/-- The statement `stat_load_hits++`. -/
def CacheSimulator.incrLoadHits (c : CacheSimulator) : Option CacheSimulator :=
  (addInt32 c.stat_load_hits 1).map fun v => { c with stat_load_hits := v }

/-- The statement `stat_store_misses++`. -/
def CacheSimulator.incrStoreMisses (c : CacheSimulator) : Option CacheSimulator :=
  (addInt32 c.stat_store_misses 1).map fun v => { c with stat_store_misses := v }

/-- The statement `stat_load_misses++`. -/
def CacheSimulator.incrLoadMisses (c : CacheSimulator) : Option CacheSimulator :=
  (addInt32 c.stat_load_misses 1).map fun v => { c with stat_load_misses := v }

/-- The statement `stat_dirty_evictions++`. -/
def CacheSimulator.incrDirtyEvictions (c : CacheSimulator) : Option CacheSimulator :=
  (addInt32 c.stat_dirty_evictions 1).map fun v => { c with stat_dirty_evictions := v }

/-- The method `update_statistics(itype, icount, hit, dirty_writeback)` on `int` counters,
statement by statement (lines 148-180); the result is `none` when an addition overflows. -/
def CacheSimulator.update_statistics_int (c : CacheSimulator) (itype icount : Int)
    (hit dirty_writeback : Bool) : Option CacheSimulator :=
  (c.addCycles icount).bind fun c1 =>
  (c1.addInstructions icount).bind fun c2 =>
  c2.incrMemoryAccesses.bind fun c3 =>
  (if hit then
      if itype ≠ 0 then c3.incrStoreHits else c3.incrLoadHits
    else
      (if itype ≠ 0 then c3.incrStoreMisses else c3.incrLoadMisses).bind fun c4 =>
      c4.addCycles c4.miss_penalty).bind fun c5 =>
  if dirty_writeback then
    (c5.addCycles c5.dirty_write_penalty).bind fun c6 => c6.incrDirtyEvictions
  else some c5

/-- None of the additions that `update_statistics(itype, icount, hit, dirty_writeback)` performs
on the counters of `c` leaves the `int` range. -/
def CacheSimulator.NoOverflow (c : CacheSimulator) (itype icount : Int)
    (hit dirty_writeback : Bool) : Prop :=
  InInt32 (c.stat_cycles + icount) ∧ InInt32 (c.stat_instructions + icount) ∧
    InInt32 (c.stat_memory_accesses + 1) ∧
    (hit = true → itype ≠ 0 → InInt32 (c.stat_store_hits + 1)) ∧
    (hit = true → itype = 0 → InInt32 (c.stat_load_hits + 1)) ∧
    (hit = false → itype ≠ 0 → InInt32 (c.stat_store_misses + 1)) ∧
    (hit = false → itype = 0 → InInt32 (c.stat_load_misses + 1)) ∧
    (hit = false → InInt32 (c.stat_cycles + icount + c.miss_penalty)) ∧
    (dirty_writeback = true →
      InInt32 (c.stat_cycles + icount + (if hit = true then 0 else c.miss_penalty) +
        c.dirty_write_penalty) ∧ InInt32 (c.stat_dirty_evictions + 1))

/-! ## The driver loop -/

/-- One trace record as `scanf` delivers it: `loadstore`, `address` (an `unsigned long` read with
`%lx`) and `icount`. -/
structure TraceRecord where
  loadstore : Int
  address : Nat
  icount : Int
  deriving DecidableEq

/-- One iteration of the `while` loop of `main` (lines 314-315); the address is converted to
`unsigned int` at the call. -/
def driverStep (c : CacheSimulator) (r : TraceRecord) : Option CacheSimulator :=
  match c.instruction r.loadstore (r.address % 4294967296) with
  | none => none
  | some (c1, hit, dirty_writeback) =>
    some (c1.update_statistics r.loadstore r.icount hit dirty_writeback)

/-- The `while` loop of `main` over a finite trace. -/
def driverLoop : CacheSimulator → List TraceRecord → Option CacheSimulator
  | c, [] => some c
  | c, r :: rest =>
    match driverStep c r with
    | none => none
    | some c1 => driverLoop c1 rest

/-- The outcomes `(hit, dirty_writeback)` that `instruction` reports along a trace replayed by the
driver loop. -/
def driverOutcomes : CacheSimulator → List TraceRecord → Option (List (Bool × Bool))
  | _, [] => some []
  | c, r :: rest =>
    match c.instruction r.loadstore (r.address % 4294967296) with
    | none => none
    | some (c1, hit, dirty_writeback) =>
      match driverOutcomes (c1.update_statistics r.loadstore r.icount hit dirty_writeback) rest with
      | none => none
      | some outs => some ((hit, dirty_writeback) :: outs)

/-- One iteration of the `while` loop of `main` on `int` counters. -/
def driverStepInt (c : CacheSimulator) (r : TraceRecord) : Option CacheSimulator :=
  match c.instruction r.loadstore (r.address % 4294967296) with
  | none => none
  | some (c1, hit, dirty_writeback) =>
    c1.update_statistics_int r.loadstore r.icount hit dirty_writeback

/-- The `while` loop of `main` over a finite trace, on `int` counters. -/
def driverLoopInt : CacheSimulator → List TraceRecord → Option CacheSimulator
  | c, [] => some c
  | c, r :: rest =>
    match driverStepInt c r with
    | none => none
    | some c1 => driverLoopInt c1 rest

/-- The outcomes `(hit, dirty_writeback)` that `instruction` reports along a trace replayed by the
driver loop on `int` counters. -/
def driverOutcomesInt : CacheSimulator → List TraceRecord → Option (List (Bool × Bool))
  | _, [] => some []
  | c, r :: rest =>
    match c.instruction r.loadstore (r.address % 4294967296) with
    | none => none
    | some (c1, hit, dirty_writeback) =>
      match c1.update_statistics_int r.loadstore r.icount hit dirty_writeback with
      | none => none
      | some c2 =>
        match driverOutcomesInt c2 rest with
        | none => none
        | some outs => some ((hit, dirty_writeback) :: outs)

/-- The body of `main` after argument parsing: construct the simulator from the file-level
variables and replay the trace. -/
def mainRun (associativity blocksize_bytes cachesize_kb miss_penalty dirty_write_penalty : Int)
    (trace : List TraceRecord) : Option CacheSimulator :=
  match CacheSimulator.construct blocksize_bytes associativity blocksize_bytes cachesize_kb
      miss_penalty dirty_write_penalty with
  | none => none
  | some c => driverLoop c trace

/-! ## Predicates used in the statements -/

/-- The scanned slot range `[index, index + associativity)` lies inside the four vectors. -/
def CacheSimulator.RangeInBounds (c : CacheSimulator) (index : Int) : Prop :=
  0 ≤ index ∧ index + c.associativity ≤ c.valid.length ∧ index + c.associativity ≤ c.tags.length ∧
    index + c.associativity ≤ c.dirty.length ∧ index + c.associativity ≤ c.priority.length

/-- Slot `j` holds a live line: its `valid` entry exists and is nonzero. -/
def CacheSimulator.SlotValid (c : CacheSimulator) (j : Int) : Prop :=
  ∃ v, rd c.valid j = some v ∧ v ≠ 0

/-- Slot `j` is live and its stored tag is `tag`. -/
def CacheSimulator.SlotMatches (c : CacheSimulator) (tag j : Int) : Prop :=
  c.SlotValid j ∧ rd c.tags j = some tag

/-- Slot `j` is marked dirty: its `dirty` entry exists and is nonzero. -/
def CacheSimulator.SlotDirty (c : CacheSimulator) (j : Int) : Prop :=
  ∃ d, rd c.dirty j = some d ∧ d ≠ 0

/-! ## Relations between states, and example states -/

/-- Slot `j` of the vectors `valid`, `tags` is live with stored tag `tag`. -/
def Live (valid tags : List Int) (tag j : Int) : Prop :=
  (∃ v, rd valid j = some v ∧ v ≠ 0) ∧ rd tags j = some tag

/-- Slot `k` is the first slot of `[index, index + offset)` that carries the largest value of
`vec` over that range. -/
def FirstMax (vec : List Int) (index offset k : Int) : Prop :=
  index ≤ k ∧ k < index + offset ∧
    ∃ pk, rd vec k = some pk ∧
      ∀ j pj, index ≤ j → j < index + offset → rd vec j = some pj →
        pj ≤ pk ∧ (j < k → pj < pk)

/-- The effect of a hit on slot `k`. -/
def HitCase (c : CacheSimulator) (type tag index : Int) (c1 : CacheSimulator) (k : Int) : Prop :=
  Live c.valid c.tags tag k ∧ (∀ j, index ≤ j → j < k → ¬ Live c.valid c.tags tag j) ∧
    c1.valid = c.valid ∧ c1.tags = c.tags ∧
    ∃ d, rd c.dirty k = some d ∧ wr c.dirty k (Int.lor d type) = some c1.dirty

/-- The effect of a miss that refills slot `k`: either `k` is the last invalid slot of the range,
or the whole range is valid and `k` is the first slot of largest priority. -/
def MissCase (c : CacheSimulator) (type tag index : Int) (c1 : CacheSimulator) (dwb : Bool)
    (k : Int) : Prop :=
  (∀ j, index ≤ j → j < index + c.associativity → ¬ Live c.valid c.tags tag j) ∧
    (∀ j, index ≤ j → j < index + c.associativity → ∃ v, rd c.valid j = some v) ∧
    wr c.dirty k type = some c1.dirty ∧ wr c.tags k tag = some c1.tags ∧
    ((rd c.valid k = some 0 ∧ (∀ j, k < j → j < index + c.associativity → rd c.valid j ≠ some 0) ∧
        wr c.valid k 1 = some c1.valid ∧ dwb = false) ∨
     ((∀ j, index ≤ j → j < index + c.associativity → rd c.valid j ≠ some 0) ∧
        c1.valid = c.valid ∧ FirstMax c.priority index c.associativity k ∧
        ∃ d, rd c.dirty k = some d ∧ dwb = decide (d ≠ 0)))

/-- The relation between the state `c` before an access with the decomposition `(index, tag)` and
the state `c1`, outcome `(hit, dwb)` and accessed slot `k` after it. -/
structure AccessSpec (c : CacheSimulator) (type tag index : Int) (c1 : CacheSimulator)
    (hit dwb : Bool) (k : Int) : Prop where
  frame : c1 = { c with valid := c1.valid, dirty := c1.dirty, tags := c1.tags,
                        priority := c1.priority }
  range : index ≤ k ∧ k < index + c.associativity
  len_valid : c1.valid.length = c.valid.length
  len_tags : c1.tags.length = c.tags.length
  len_dirty : c1.dirty.length = c.dirty.length
  len_priority : c1.priority.length = c.priority.length
  prio : ∃ p1, priorityLoop index k c.associativity.toNat c.priority = some p1 ∧
    wr p1 k 1 = some c1.priority
  cases : (hit = true ∧ dwb = false ∧ HitCase c type tag index c1 k) ∨
    (hit = false ∧ MissCase c type tag index c1 dwb k)

/-- The state that `CacheSimulator(1, 32, 1, 30, 2)` builds when the file-level `blocksize_bytes`
is 32: direct-mapped, 32 slots of 32 bytes. -/
def freshDirectMapped : CacheSimulator :=
  { associativity := 1, blocksize_byte := 32, cachesize_kb := 1, miss_penalty := 30,
    dirty_write_penalty := 2, num_blocks := 32, num_sets := 32, num_offset_bits := 5,
    num_index_bits := 5, tag_mask := 10,
    tags := List.replicate 32 0, valid := List.replicate 32 0,
    priority := List.replicate 32 0, dirty := List.replicate 32 0,
    stat_instructions := 0, stat_cycles := 0, stat_memory_accesses := 0,
    stat_dirty_evictions := 0, stat_load_misses := 0, stat_store_misses := 0,
    stat_load_hits := 0, stat_store_hits := 0 }

/-- The state that `CacheSimulator(2, 256, 1, 30, 2)` builds when the file-level `blocksize_bytes`
is 256: two-way, 4 slots of 256 bytes, `num_sets = 2`. -/
def freshTwoWay : CacheSimulator :=
  { associativity := 2, blocksize_byte := 256, cachesize_kb := 1, miss_penalty := 30,
    dirty_write_penalty := 2, num_blocks := 4, num_sets := 2, num_offset_bits := 8,
    num_index_bits := 1, tag_mask := 9,
    tags := [0, 0, 0, 0], valid := [0, 0, 0, 0], priority := [0, 0, 0, 0], dirty := [0, 0, 0, 0],
    stat_instructions := 0, stat_cycles := 0, stat_memory_accesses := 0,
    stat_dirty_evictions := 0, stat_load_misses := 0, stat_store_misses := 0,
    stat_load_hits := 0, stat_store_hits := 0 }

/-- Replay a sequence of accesses `(type, address)` through `instruction`; the result lists, for
every access, `hit`, `dirty_writeback` and the accessed slot `new_index`. -/
def runAccesses : CacheSimulator → List (Int × Nat) →
    Option (CacheSimulator × List (Bool × Bool × Int))
  | c, [] => some (c, [])
  | c, a :: rest =>
    match c.instructionCore a.1 a.2 with
    | none => none
    | some (c1, hit, dwb, k) =>
      match runAccesses c1 rest with
      | none => none
      | some (c2, outs) => some (c2, (hit, dwb, k) :: outs)

/-- The two-way cache after the store `0x100` (slot 2 refilled, dirty). -/
def twoWayAfterStore : CacheSimulator :=
  { freshTwoWay with tags := [0, 0, 0, 0], valid := [0, 0, 1, 0], priority := [0, 0, 1, 0],
                     dirty := [0, 0, 1, 0] }

/-- The two-way cache after the store `0x100` and the load `0x200` (slots 2 and 3 live). -/
def twoWayAfterStoreLoad : CacheSimulator :=
  { freshTwoWay with tags := [0, 0, 0, 1], valid := [0, 0, 1, 1], priority := [0, 0, 1, 1],
                     dirty := [0, 0, 1, 0] }

/-- The two-way cache after the store `0x100` and the loads `0x200`, `0x600` (slot 2 evicted). -/
def twoWayAfterEviction : CacheSimulator :=
  { freshTwoWay with tags := [0, 0, 3, 1], valid := [0, 0, 1, 1], priority := [0, 0, 1, 1],
                     dirty := [0, 0, 0, 0] }

/-- The sum of the four hit and miss counters. -/
def CacheSimulator.hitMissTotal (c : CacheSimulator) : Int :=
  c.stat_load_hits + c.stat_load_misses + c.stat_store_hits + c.stat_store_misses

/-- The part of a state that address decomposition and bounds depend on. -/
structure WellFormed (c : CacheSimulator) : Prop where
  assoc_pos : 1 ≤ c.associativity
  blocks_ge : c.associativity ≤ c.num_blocks
  blocks_lt : c.num_blocks < 2147483648
  offset_ok : 0 ≤ c.num_offset_bits ∧ c.num_offset_bits < 32
  tag_ok : 0 ≤ c.tag_mask ∧ c.tag_mask < 32
  len_valid : (c.valid.length : Int) = c.num_blocks
  len_tags : (c.tags.length : Int) = c.num_blocks
  len_dirty : (c.dirty.length : Int) = c.num_blocks
  len_priority : (c.priority.length : Int) = c.num_blocks

/-- All statistics counters are zero. -/
def CacheSimulator.ZeroStats (c : CacheSimulator) : Prop :=
  c.stat_instructions = 0 ∧ c.stat_cycles = 0 ∧ c.stat_memory_accesses = 0 ∧
    c.stat_dirty_evictions = 0 ∧ c.stat_load_misses = 0 ∧ c.stat_store_misses = 0 ∧
    c.stat_load_hits = 0 ∧ c.stat_store_hits = 0

/-- The state `c1` has the configuration and the vector lengths of `c`. -/
def SameShape (c c1 : CacheSimulator) : Prop :=
  c1.associativity = c.associativity ∧ c1.num_blocks = c.num_blocks ∧
    c1.num_offset_bits = c.num_offset_bits ∧ c1.tag_mask = c.tag_mask ∧
    c1.valid.length = c.valid.length ∧ c1.tags.length = c.tags.length ∧
    c1.dirty.length = c.dirty.length ∧ c1.priority.length = c.priority.length

/-- The access to `address` is in bounds for `c`: the decomposition is defined and the scanned
range `[index, index + associativity)` is non-empty and lies inside the four vectors. -/
def CacheSimulator.AccessInBounds (c : CacheSimulator) (address : Nat) : Prop :=
  1 ≤ c.associativity ∧
    ∃ index tag, c.get_index_bits address = some index ∧ c.get_tag_bits address = some tag ∧
      c.RangeInBounds index

/-- A finite sequence of calls `update_statistics(itype, icount, hit, dirty_writeback)`. -/
def applyStatistics : CacheSimulator → List (Int × Int × Bool × Bool) → CacheSimulator
  | c, [] => c
  | c, call :: rest =>
    applyStatistics (c.update_statistics call.1 call.2.1 call.2.2.1 call.2.2.2) rest

/-- The cycle count is the instruction count plus the penalties of the counted misses and dirty
evictions, and these counts are non-negative. -/
def CacheSimulator.CyclesAccounted (c : CacheSimulator) : Prop :=
  c.stat_cycles = c.stat_instructions +
      c.miss_penalty * (c.stat_load_misses + c.stat_store_misses) +
      c.dirty_write_penalty * c.stat_dirty_evictions ∧
    0 ≤ c.stat_load_misses ∧ 0 ≤ c.stat_store_misses ∧ 0 ≤ c.stat_dirty_evictions

/-- The two-way cache after the stores `0x000` and `0x800`: slot 1 holds the line of `0x000`,
slot 0 that of `0x800`, both dirty with priority 1. -/
def twoWayFullSet : CacheSimulator :=
  { freshTwoWay with tags := [4, 0, 0, 0], valid := [1, 1, 0, 0], priority := [1, 1, 0, 0],
                     dirty := [1, 1, 0, 0] }

/-- The state that `CacheSimulator(4, 256, 1, 30, 2)` builds when the file-level `blocksize_bytes`
is 256: four-way, 4 slots of 256 bytes, a single set. -/
def freshFourWay : CacheSimulator :=
  { associativity := 4, blocksize_byte := 256, cachesize_kb := 1, miss_penalty := 30,
    dirty_write_penalty := 2, num_blocks := 4, num_sets := 1, num_offset_bits := 8,
    num_index_bits := 0, tag_mask := 8,
    tags := [0, 0, 0, 0], valid := [0, 0, 0, 0], priority := [0, 0, 0, 0], dirty := [0, 0, 0, 0],
    stat_instructions := 0, stat_cycles := 0, stat_memory_accesses := 0,
    stat_dirty_evictions := 0, stat_load_misses := 0, stat_store_misses := 0,
    stat_load_hits := 0, stat_store_hits := 0 }

/-- The two-way cache after the loads `0x100` and `0x000`: slots 1 and 2 both hold tag 0. -/
def twoWayDuplicateTag : CacheSimulator :=
  { freshTwoWay with tags := [0, 0, 0, 0], valid := [0, 1, 1, 0], priority := [0, 1, 1, 0],
                     dirty := [0, 0, 0, 0] }

/-- The number of entries of a vector that are nonzero. -/
def nonzeroCount (vec : List Int) : Nat := vec.countP (fun d => decide (d ≠ 0))

/-- The number of slots whose dirty flag is nonzero. -/
def CacheSimulator.dirtyCount (c : CacheSimulator) : Nat := nonzeroCount c.dirty

/-- The number of store records (`loadstore` nonzero) of a trace. -/
def storeCount (trace : List TraceRecord) : Nat :=
  trace.countP (fun r => decide (r.loadstore ≠ 0))

/-! ## The textbook direct-mapped reference model -/

/-- The block number of an address: `address >> num_offset_bits`. -/
def blockNumber (offsetBits address : Nat) : Nat := address >>> offsetBits

/-- Reference model, one access: `history` lists the earlier addresses, most recent first.  The
access hits iff the most recent earlier access whose block number is congruent to its block
number modulo `numBlocks` exists and has exactly the same block number. -/
def referenceHit (numBlocks offsetBits : Nat) (history : List Nat) (address : Nat) : Bool :=
  match history.find? (fun e => decide (blockNumber offsetBits e % numBlocks =
      blockNumber offsetBits address % numBlocks)) with
  | some e => decide (blockNumber offsetBits e = blockNumber offsetBits address)
  | none => false

/-- Reference model, a trace: the hit flag of every access, given the earlier history. -/
def referenceHits (numBlocks offsetBits : Nat) : List Nat → List Nat → List Bool
  | _, [] => []
  | history, address :: rest =>
    referenceHit numBlocks offsetBits history address ::
      referenceHits numBlocks offsetBits (address :: history) rest

/-- The hit flags that the simulator reports along a trace replayed by the driver loop. -/
def simulatorHits (c : CacheSimulator) (trace : List TraceRecord) : Option (List Bool) :=
  (driverOutcomes c trace).map (List.map Prod.fst)

/-- The slot and the tag that a direct-mapped cache of `2 ^ k` blocks assigns to a block number:
the reference model agrees with the state `c` on every 32-bit address. -/
def AgreesWithHistory (k offsetBits : Nat) (c : CacheSimulator) (history : List Nat) : Prop :=
  ∀ a, a < 4294967296 →
    (Live c.valid c.tags (toInt32 (blockNumber offsetBits a / 2 ^ k))
        ((blockNumber offsetBits a % 2 ^ k : Nat) : Int) ↔
      referenceHit (2 ^ k) offsetBits history a = true)

/-! ## Vector reads and writes -/

theorem rd_eq_some_of_bounds (vec : List Int) (i : Int) (h0 : 0 ≤ i) (h1 : i < vec.length) :
    ∃ v, rd vec i = some v := by
  have : i.toNat < vec.length := by omega
  exact ⟨vec[i.toNat], by simp [rd, h0, List.getElem?_eq_getElem this]⟩

theorem rd_bounds (vec : List Int) (i v : Int) (h : rd vec i = some v) :
    0 ≤ i ∧ i < vec.length := by
  unfold rd at h
  split at h
  · rename_i h0
    have := List.getElem?_eq_some_iff.mp h
    obtain ⟨hlt, _⟩ := this
    omega
  · simp at h

theorem wr_eq_some_iff (vec vec1 : List Int) (i x : Int) :
    wr vec i x = some vec1 ↔ (0 ≤ i ∧ i < vec.length) ∧ vec1 = vec.set i.toNat x := by
  unfold wr
  split
  · rename_i h
    constructor
    · intro e
      simp at e
      exact ⟨⟨h.1, by omega⟩, e.symm⟩
    · rintro ⟨_, e⟩
      simp [e]
  · rename_i h
    constructor
    · intro e
      simp at e
    · rintro ⟨⟨h0, h1⟩, _⟩
      exact absurd ⟨h0, by omega⟩ h

theorem wr_eq_some_of_bounds (vec : List Int) (i x : Int) (h0 : 0 ≤ i) (h1 : i < vec.length) :
    wr vec i x = some (vec.set i.toNat x) :=
  (wr_eq_some_iff vec _ i x).mpr ⟨⟨h0, h1⟩, rfl⟩

theorem wr_length (vec vec1 : List Int) (i x : Int) (h : wr vec i x = some vec1) :
    vec1.length = vec.length := by
  obtain ⟨_, e⟩ := (wr_eq_some_iff vec vec1 i x).mp h
  simp [e]

theorem rd_wr_same (vec vec1 : List Int) (i x : Int) (h : wr vec i x = some vec1) :
    rd vec1 i = some x := by
  obtain ⟨⟨h0, h1⟩, e⟩ := (wr_eq_some_iff vec vec1 i x).mp h
  have : i.toNat < vec.length := by omega
  simp [rd, h0, e, List.getElem?_set, this]

theorem rd_wr_other (vec vec1 : List Int) (i j x : Int) (h : wr vec i x = some vec1)
    (hij : j ≠ i) : rd vec1 j = rd vec j := by
  obtain ⟨⟨h0, h1⟩, e⟩ := (wr_eq_some_iff vec vec1 i x).mp h
  unfold rd
  split
  · rename_i hj
    have : i.toNat ≠ j.toNat := by omega
    simp [e, List.getElem?_set, this]
  · rfl

/-! ## The scan loop -/

theorem scanLoop_spec (valid tags dirty : List Int) (type tag : Int) :
    ∀ (n : Nat) (i inv : Int), 0 ≤ i → i + n ≤ valid.length → i + n ≤ tags.length →
      i + n ≤ dirty.length →
      ∃ s, scanLoop valid tags dirty type tag n i inv = some s ∧
        ((s.hit = true ∧ i ≤ s.hit_index ∧ s.hit_index < i + n ∧
            Live valid tags tag s.hit_index ∧
            (∃ d, rd dirty s.hit_index = some d ∧
              wr dirty s.hit_index (Int.lor d type) = some s.dirty) ∧
            (∀ j, i ≤ j → j < s.hit_index → ¬ Live valid tags tag j)) ∨
         (s.hit = false ∧ s.hit_index = -1 ∧ s.dirty = dirty ∧
            (∀ j, i ≤ j → j < i + n → ¬ Live valid tags tag j) ∧
            ((s.invalid_index = inv ∧ ∀ j, i ≤ j → j < i + n → rd valid j ≠ some 0) ∨
             (i ≤ s.invalid_index ∧ s.invalid_index < i + n ∧
                rd valid s.invalid_index = some 0 ∧
                ∀ j, s.invalid_index < j → j < i + n → rd valid j ≠ some 0)))) := by
  intro n
  induction n with
  | zero =>
    intro i inv _ _ _ _
    refine ⟨⟨inv, -1, false, dirty⟩, rfl, Or.inr ⟨rfl, rfl, rfl, ?_, Or.inl ⟨rfl, ?_⟩⟩⟩
    · intro j h1 h2
      simp at h2
      omega
    · intro j h1 h2
      simp at h2
      omega
  | succ n ih =>
    intro i inv h0 hv ht hd
    push_cast at hv ht hd
    obtain ⟨v, hrv⟩ := rd_eq_some_of_bounds valid i h0 (by omega)
    obtain ⟨t, hrt⟩ := rd_eq_some_of_bounds tags i h0 (by omega)
    obtain ⟨d, hrd⟩ := rd_eq_some_of_bounds dirty i h0 (by omega)
    by_cases hv0 : v = 0
    · obtain ⟨s, hs, hcase⟩ := ih (i + 1) i (by omega) (by omega) (by omega) (by omega)
      refine ⟨s, by simp [scanLoop, hrv, hv0, hs], ?_⟩
      have hnl : ¬ Live valid tags tag i := by
        rintro ⟨⟨v1, hv1, hne⟩, _⟩
        rw [hrv] at hv1
        simp at hv1
        exact hne (hv1 ▸ hv0)
      rcases hcase with ⟨hh, h1, h2, h3, h4, h5⟩ | ⟨hh, h1, h2, h3, h4⟩
      · refine Or.inl ⟨hh, by omega, by push_cast; omega, h3, h4, ?_⟩
        intro j hj1 hj2
        by_cases hji : j = i
        · exact hji ▸ hnl
        · exact h5 j (by omega) hj2
      · refine Or.inr ⟨hh, h1, h2, ?_, Or.inr ?_⟩
        · intro j hj1 hj2
          by_cases hji : j = i
          · exact hji ▸ hnl
          · exact h3 j (by omega) (by push_cast at hj2; omega)
        · rcases h4 with ⟨e, hall⟩ | ⟨g1, g2, g3, g4⟩
          · refine ⟨by omega, by push_cast; omega, by rw [e, hrv, hv0], ?_⟩
            intro j hj1 hj2
            exact hall j (by omega) (by push_cast at hj2; omega)
          · refine ⟨by omega, by push_cast; omega, g3, ?_⟩
            intro j hj1 hj2
            exact g4 j hj1 (by push_cast at hj2; omega)
    · by_cases htt : t = tag
      · have hw := wr_eq_some_of_bounds dirty i (Int.lor d type) h0 (by omega)
        refine ⟨⟨inv, i, true, dirty.set i.toNat (Int.lor d type)⟩,
          by simp [scanLoop, hrv, hv0, hrt, htt, hrd, hw], Or.inl ⟨rfl, ?_, ?_, ?_, ?_, ?_⟩⟩
        · exact le_refl i
        · show i < i + ((n + 1 : Nat) : Int)
          push_cast; omega
        · exact ⟨⟨v, hrv, hv0⟩, htt ▸ hrt⟩
        · exact ⟨d, hrd, hw⟩
        · intro j hj1 hj2
          exact absurd hj2 (by simp only [not_lt]; exact hj1)
      · obtain ⟨s, hs, hcase⟩ := ih (i + 1) inv (by omega) (by omega) (by omega) (by omega)
        refine ⟨s, by simp [scanLoop, hrv, hv0, hrt, htt, hs], ?_⟩
        have hnl : ¬ Live valid tags tag i := by
          rintro ⟨_, ht1⟩
          rw [hrt] at ht1
          simp at ht1
          exact htt ht1
        have hnz : rd valid i ≠ some 0 := by
          rw [hrv]
          simp [hv0]
        rcases hcase with ⟨hh, h1, h2, h3, h4, h5⟩ | ⟨hh, h1, h2, h3, h4⟩
        · refine Or.inl ⟨hh, by omega, by push_cast; omega, h3, h4, ?_⟩
          intro j hj1 hj2
          by_cases hji : j = i
          · exact hji ▸ hnl
          · exact h5 j (by omega) hj2
        · refine Or.inr ⟨hh, h1, h2, ?_, ?_⟩
          · intro j hj1 hj2
            by_cases hji : j = i
            · exact hji ▸ hnl
            · exact h3 j (by omega) (by push_cast at hj2; omega)
          · rcases h4 with ⟨e, hall⟩ | ⟨g1, g2, g3, g4⟩
            · refine Or.inl ⟨e, ?_⟩
              intro j hj1 hj2
              by_cases hji : j = i
              · exact hji ▸ hnz
              · exact hall j (by omega) (by push_cast at hj2; omega)
            · refine Or.inr ⟨by omega, by push_cast; omega, g3, ?_⟩
              intro j hj1 hj2
              exact g4 j hj1 (by push_cast at hj2; omega)

/-! ## Victim selection and the priority loop -/

theorem getD_of_rd (vec : List Int) (j v : Int) (h : rd vec j = some v) :
    vec.getD j.toNat 0 = v := by
  unfold rd at h
  split at h
  · simp [List.getD, h]
  · simp at h

theorem rd_natCast (vec : List Int) (j : Nat) (h : j < vec.length) :
    rd vec (j : Int) = some (vec.getD j 0) := by
  simp [rd, List.getD, List.getElem?_eq_getElem h]

theorem maxElementFrom_spec (vec : List Int) (start : Nat) :
    ∀ (count first largest : Nat), start ≤ largest → largest < first →
      (∀ j, start ≤ j → j < first → vec.getD j 0 ≤ vec.getD largest 0) →
      (∀ j, start ≤ j → j < largest → vec.getD j 0 < vec.getD largest 0) →
      start ≤ maxElementFrom vec count first largest ∧
      maxElementFrom vec count first largest < first + count ∧
      (∀ j, start ≤ j → j < first + count →
        vec.getD j 0 ≤ vec.getD (maxElementFrom vec count first largest) 0) ∧
      (∀ j, start ≤ j → j < maxElementFrom vec count first largest →
        vec.getD j 0 < vec.getD (maxElementFrom vec count first largest) 0) := by
  intro count
  induction count with
  | zero =>
    intro first largest h1 h2 h3 h4
    exact ⟨h1, by simpa [maxElementFrom] using h2, by simpa [maxElementFrom] using h3,
      by simpa [maxElementFrom] using h4⟩
  | succ count ih =>
    intro first largest h1 h2 h3 h4
    by_cases hlt : vec.getD largest 0 < vec.getD first 0
    · have key := ih (first + 1) first (by omega) (by omega)
        (by
          intro j hj1 hj2
          by_cases hjf : j = first
          · rw [hjf]
          · exact le_of_lt (lt_of_le_of_lt (h3 j hj1 (by omega)) hlt))
        (by
          intro j hj1 hj2
          exact lt_of_le_of_lt (h3 j hj1 hj2) hlt)
      simp only [maxElementFrom, hlt, if_true]
      obtain ⟨k1, k2, k3, k4⟩ := key
      exact ⟨k1, by omega, fun j a b => k3 j a (by omega), k4⟩
    · have key := ih (first + 1) largest h1 (by omega)
        (by
          intro j hj1 hj2
          by_cases hjf : j = first
          · rw [hjf]
            exact not_lt.mp hlt
          · exact h3 j hj1 (by omega))
        h4
      simp only [maxElementFrom, hlt, if_false]
      obtain ⟨k1, k2, k3, k4⟩ := key
      exact ⟨k1, by omega, fun j a b => k3 j a (by omega), k4⟩

theorem max_element_index_spec (vec : List Int) (index offset : Int) (h0 : 0 ≤ index)
    (h1 : 1 ≤ offset) (h2 : index + offset ≤ vec.length) :
    ∃ k, max_element_index vec index offset = some k ∧ FirstMax vec index offset k := by
  have hspec := maxElementFrom_spec vec index.toNat (offset.toNat - 1) (index.toNat + 1)
    index.toNat (le_refl _) (by omega)
    (by
      intro j hj1 hj2
      have : j = index.toNat := by omega
      rw [this])
    (by
      intro j hj1 hj2
      omega)
  obtain ⟨k1, k2, k3, k4⟩ := hspec
  refine ⟨((maxElementFrom vec (offset.toNat - 1) (index.toNat + 1) index.toNat : Nat) : Int),
    ?_, ?_⟩
  · unfold max_element_index
    rw [if_neg (by omega), if_neg (by omega)]
  · set r := maxElementFrom vec (offset.toNat - 1) (index.toNat + 1) index.toNat with hr
    refine ⟨by omega, by omega, vec.getD r 0, rd_natCast vec r (by omega), ?_⟩
    intro j pj hj1 hj2 hj3
    have hj : vec.getD j.toNat 0 = pj := getD_of_rd vec j pj hj3
    constructor
    · rw [← hj]
      exact k3 j.toNat (by omega) (by omega)
    · intro hjk
      rw [← hj]
      exact k4 j.toNat (by omega) (by omega)

theorem FirstMax_unique (vec : List Int) (index offset k1 k2 : Int)
    (h1 : FirstMax vec index offset k1) (h2 : FirstMax vec index offset k2) : k1 = k2 := by
  obtain ⟨a1, a2, p1, a3, a4⟩ := h1
  obtain ⟨b1, b2, p2, b3, b4⟩ := h2
  by_contra hne
  rcases lt_or_gt_of_ne hne with h | h
  · have x := (b4 k1 p1 a1 a2 a3).2 h
    have y := (a4 k2 p2 b1 b2 b3).1
    omega
  · have x := (a4 k2 p2 b1 b2 b3).2 h
    have y := (b4 k1 p1 a1 a2 a3).1
    omega

theorem priorityLoop_total (index new_index : Int) :
    ∀ (n : Nat) (priority : List Int), 0 ≤ index → index < priority.length → 0 ≤ new_index →
      new_index < priority.length →
      ∃ p1, priorityLoop index new_index n priority = some p1 ∧ p1.length = priority.length := by
  intro n
  induction n with
  | zero =>
    intro priority _ _ _ _
    exact ⟨priority, rfl, rfl⟩
  | succ n ih =>
    intro priority h0 h1 h2 h3
    obtain ⟨p, hp⟩ := rd_eq_some_of_bounds priority index h0 h1
    obtain ⟨q, hq⟩ := rd_eq_some_of_bounds priority new_index h2 h3
    by_cases hpq : p < q
    · have hw := wr_eq_some_of_bounds priority index (p + 1) h0 h1
      obtain ⟨p1, e1, e2⟩ := ih (priority.set index.toNat (p + 1)) h0 (by simpa using h1) h2
        (by simpa using h3)
      exact ⟨p1, by simp [priorityLoop, hp, hq, hpq, hw, e1], by simpa using e2⟩
    · obtain ⟨p1, e1, e2⟩ := ih priority h0 h1 h2 h3
      exact ⟨p1, by simp [priorityLoop, hp, hq, hpq, e1], e2⟩

theorem scanLoop_miss_defined (valid tags dirty : List Int) (type tag : Int) :
    ∀ (n : Nat) (i inv : Int) (s : ScanOut),
      scanLoop valid tags dirty type tag n i inv = some s → s.hit = false →
        ∀ j, i ≤ j → j < i + n → ∃ v, rd valid j = some v := by
  intro n
  induction n with
  | zero =>
    intro i inv s _ _ j h1 h2
    simp at h2
    omega
  | succ n ih =>
    intro i inv s h hh j h1 h2
    unfold scanLoop at h
    cases hrv : rd valid i with
    | none => simp [hrv] at h
    | some v =>
      by_cases hji : j = i
      · exact ⟨v, hji ▸ hrv⟩
      · have hj2 : j < i + 1 + (n : Int) := by push_cast at h2; omega
        simp only [hrv] at h
        by_cases hv0 : v = 0
        · rw [if_pos hv0] at h
          exact ih (i + 1) i s h hh j (by omega) hj2
        · rw [if_neg hv0] at h
          cases hrt : rd tags i with
          | none => simp [hrt] at h
          | some t =>
            simp only [hrt] at h
            by_cases htt : t = tag
            · rw [if_neg (by simpa using htt)] at h
              cases hrd : rd dirty i with
              | none => simp [hrd] at h
              | some d =>
                simp only [hrd] at h
                cases hw : wr dirty i (Int.lor d type) with
                | none => simp [hw] at h
                | some dirty1 =>
                  simp only [hw, Option.some.injEq] at h
                  subst h
                  simp at hh
            · rw [if_pos (by simpa using htt)] at h
              exact ih (i + 1) inv s h hh j (by omega) hj2

/-! ## What one access does -/

theorem instructionCore_spec (c : CacheSimulator) (type : Int) (address : Nat) (index tag : Int)
    (hi : c.get_index_bits address = some index) (ht : c.get_tag_bits address = some tag)
    (hb : c.RangeInBounds index) (ha : 1 ≤ c.associativity) :
    ∃ c1 hit dwb k, c.instructionCore type address = some (c1, hit, dwb, k) ∧
      AccessSpec c type tag index c1 hit dwb k := by
  obtain ⟨h0, hbv, hbt, hbd, hbp⟩ := hb
  obtain ⟨s, hs, hcase⟩ := scanLoop_spec c.valid c.tags c.dirty type tag c.associativity.toNat
    index (-1) h0 (by omega) (by omega) (by omega)
  have hcast : ((c.associativity.toNat : Nat) : Int) = c.associativity := by omega
  rw [hcast] at hcase
  rcases hcase with ⟨hh, h1, h2, h3, ⟨d, h4, h5⟩, h6⟩ | ⟨hh, h1, h2, h3, h4⟩
  · -- hit
    obtain ⟨p1, hp1, hl1⟩ := priorityLoop_total index s.hit_index c.associativity.toNat c.priority
      h0 (by omega) (by omega) (by omega)
    have hw := wr_eq_some_of_bounds p1 s.hit_index 1 (by omega) (by omega)
    refine ⟨{ c with valid := c.valid, dirty := s.dirty, tags := c.tags,
                     priority := p1.set s.hit_index.toNat 1 }, true, false, s.hit_index, ?_, ?_⟩
    · simp [CacheSimulator.instructionCore, hi, ht, hs, hh, hp1, hw]
    · exact
        { frame := rfl
          range := ⟨h1, h2⟩
          len_valid := rfl
          len_tags := rfl
          len_dirty := wr_length _ _ _ _ h5
          len_priority := by simp [hl1]
          prio := ⟨p1, hp1, hw⟩
          cases := Or.inl ⟨rfl, rfl, h3, h6, rfl, rfl, d, h4, h5⟩ }
  · -- miss
    rcases h4 with ⟨e, hall⟩ | ⟨g1, g2, g3, g4⟩
    · -- the range is full: evict
      obtain ⟨k, hk, hfm⟩ := max_element_index_spec c.priority index c.associativity h0 ha hbp
      obtain ⟨k1, k2, -⟩ := id hfm
      obtain ⟨d, hd⟩ := rd_eq_some_of_bounds c.dirty k (by omega) (by omega)
      have hwd := wr_eq_some_of_bounds c.dirty k type (by omega) (by omega)
      have hwt := wr_eq_some_of_bounds c.tags k tag (by omega) (by omega)
      obtain ⟨p1, hp1, hl1⟩ := priorityLoop_total index k c.associativity.toNat c.priority
        h0 (by omega) (by omega) (by omega)
      have hw := wr_eq_some_of_bounds p1 k 1 (by omega) (by omega)
      refine ⟨{ c with valid := c.valid, dirty := c.dirty.set k.toNat type,
                       tags := c.tags.set k.toNat tag, priority := p1.set k.toNat 1 },
        false, decide (d ≠ 0), k, ?_, ?_⟩
      · simp [CacheSimulator.instructionCore, hi, ht, hs, hh, refill, e, h2, hk, hd, hwd, hwt,
          hp1, hw]
      · exact
          { frame := rfl
            range := ⟨k1, k2⟩
            len_valid := rfl
            len_tags := by simp
            len_dirty := by simp
            len_priority := by simp [hl1]
            prio := ⟨p1, hp1, hw⟩
            cases := Or.inr ⟨rfl, h3,
              fun j hj1 hj2 => rd_eq_some_of_bounds c.valid j (by omega) (by omega),
              hwd, hwt, Or.inr ⟨hall, rfl, hfm, d, hd, rfl⟩⟩ }
    · -- an invalid slot is refilled
      have hwv := wr_eq_some_of_bounds c.valid s.invalid_index 1 (by omega) (by omega)
      have hwd := wr_eq_some_of_bounds c.dirty s.invalid_index type (by omega) (by omega)
      have hwt := wr_eq_some_of_bounds c.tags s.invalid_index tag (by omega) (by omega)
      obtain ⟨p1, hp1, hl1⟩ := priorityLoop_total index s.invalid_index c.associativity.toNat
        c.priority h0 (by omega) (by omega) (by omega)
      have hw := wr_eq_some_of_bounds p1 s.invalid_index 1 (by omega) (by omega)
      have hge : 0 ≤ s.invalid_index := by omega
      refine ⟨{ c with valid := c.valid.set s.invalid_index.toNat 1,
                       dirty := c.dirty.set s.invalid_index.toNat type,
                       tags := c.tags.set s.invalid_index.toNat tag,
                       priority := p1.set s.invalid_index.toNat 1 },
        false, false, s.invalid_index, ?_, ?_⟩
      · simp [CacheSimulator.instructionCore, hi, ht, hs, hh, refill, hge, h2, hwv, hwd, hwt,
          hp1, hw]
      · exact
          { frame := rfl
            range := ⟨g1, g2⟩
            len_valid := by simp
            len_tags := by simp
            len_dirty := by simp
            len_priority := by simp [hl1]
            prio := ⟨p1, hp1, hw⟩
            cases := Or.inr ⟨rfl, h3,
              fun j hj1 hj2 => rd_eq_some_of_bounds c.valid j (by omega) (by omega),
              hwd, hwt, Or.inl ⟨g3, g4, hwv, rfl⟩⟩ }

theorem instruction_of_core (c : CacheSimulator) (type : Int) (address : Nat)
    (c1 : CacheSimulator) (hit dwb : Bool) (k : Int)
    (h : c.instructionCore type address = some (c1, hit, dwb, k)) :
    c.instruction type address = some (c1, hit, dwb) := by
  simp [CacheSimulator.instruction, h]

theorem core_of_instruction (c : CacheSimulator) (type : Int) (address : Nat)
    (c1 : CacheSimulator) (hit dwb : Bool)
    (h : c.instruction type address = some (c1, hit, dwb)) :
    ∃ k, c.instructionCore type address = some (c1, hit, dwb, k) := by
  unfold CacheSimulator.instruction at h
  cases hc : c.instructionCore type address with
  | none => simp [hc] at h
  | some r =>
    obtain ⟨a, b, d, k⟩ := r
    simp [hc] at h
    obtain ⟨rfl, rfl, rfl⟩ := h
    exact ⟨k, rfl⟩

theorem instructionCore_none_of_assoc_le (c : CacheSimulator) (type : Int) (address : Nat)
    (h : c.associativity ≤ 0) : c.instructionCore type address = none := by
  have hn : c.associativity.toNat = 0 := by omega
  unfold CacheSimulator.instructionCore
  cases c.get_index_bits address with
  | none => rfl
  | some index =>
    cases c.get_tag_bits address with
    | none => rfl
    | some tag =>
      have hm : max_element_index c.priority index c.associativity = some (-1) := by
        unfold max_element_index
        rw [if_pos (Or.inr (Or.inr h))]
      simp [hn, scanLoop, refill, hm, rd]

theorem construct_freshDirectMapped :
    CacheSimulator.construct 32 1 32 1 30 2 = some freshDirectMapped := by decide

theorem construct_freshTwoWay :
    CacheSimulator.construct 256 2 256 1 30 2 = some freshTwoWay := by decide

/-! ## Hit detection -/

/-- C1: when the scanned slot range `[index, index + associativity)` lies inside the vectors,
`instruction` reports `hit = true` exactly when some slot of that range is valid before the access
and stores the tag `get_tag_bits(address)`; and with `associativity ≥ 1` it does return. -/
theorem instruction_hit_iff_live_match (c : CacheSimulator) (type : Int) (address : Nat)
    (index tag : Int) (hi : c.get_index_bits address = some index)
    (ht : c.get_tag_bits address = some tag) (hb : c.RangeInBounds index) :
    (1 ≤ c.associativity → ∃ r, c.instruction type address = some r) ∧
    ∀ c1 hit dwb, c.instruction type address = some (c1, hit, dwb) →
      (hit = true ↔ ∃ j, index ≤ j ∧ j < index + c.associativity ∧ c.SlotMatches tag j) := by
  by_cases ha : 1 ≤ c.associativity
  · obtain ⟨c1, hit, dwb, k, hcore, hspec⟩ := instructionCore_spec c type address index tag hi ht hb ha
    have hins := instruction_of_core c type address c1 hit dwb k hcore
    refine ⟨fun _ => ⟨_, hins⟩, ?_⟩
    intro c2 hit2 dwb2 h2
    rw [hins] at h2
    simp only [Option.some.injEq, Prod.mk.injEq] at h2
    obtain ⟨-, rfl, -⟩ := h2
    rcases hspec.cases with ⟨hh, -, hl, -⟩ | ⟨hh, hnone, -⟩
    · constructor
      · intro _
        exact ⟨k, hspec.range.1, hspec.range.2, hl⟩
      · intro _
        exact hh
    · constructor
      · intro ht
        rw [hh] at ht
        exact absurd ht (by simp)
      · rintro ⟨j, hj1, hj2, hj3⟩
        exact absurd hj3 (hnone j hj1 hj2)
  · refine ⟨fun h => absurd h ha, ?_⟩
    intro c1 hit dwb h
    obtain ⟨k, hk⟩ := core_of_instruction c type address c1 hit dwb h
    rw [instructionCore_none_of_assoc_le c type address (by omega)] at hk
    simp at hk

/-- C1 at the fresh direct-mapped cache and address `0x40` (slot 2, invalid): the access returns
and reports a hit exactly when slot 2 is live with tag 0. -/
theorem instruction_hit_iff_live_match_witness :
    freshDirectMapped.get_index_bits 0x40 = some 2 ∧
    freshDirectMapped.get_tag_bits 0x40 = some 0 ∧
    ((1 ≤ freshDirectMapped.associativity → ∃ r, freshDirectMapped.instruction 1 0x40 = some r) ∧
      ∀ c1 hit dwb, freshDirectMapped.instruction 1 0x40 = some (c1, hit, dwb) →
        (hit = true ↔ ∃ j, 2 ≤ j ∧ j < 2 + freshDirectMapped.associativity ∧
          freshDirectMapped.SlotMatches 0 j)) :=
  ⟨by decide, by decide,
    instruction_hit_iff_live_match freshDirectMapped 1 0x40 2 0 (by decide) (by decide)
      (by unfold CacheSimulator.RangeInBounds; decide)⟩

/-! ## Soundness of a returning access

An access that returns performed no read or write outside a vector; the relation `AccessSpec`
then holds without any further assumption on the state. -/

theorem scanLoop_sound (valid tags dirty : List Int) (type tag : Int) :
    ∀ (n : Nat) (i inv : Int) (s : ScanOut),
      scanLoop valid tags dirty type tag n i inv = some s →
        ((s.hit = true ∧ i ≤ s.hit_index ∧ s.hit_index < i + n ∧
            Live valid tags tag s.hit_index ∧
            (∃ d, rd dirty s.hit_index = some d ∧
              wr dirty s.hit_index (Int.lor d type) = some s.dirty) ∧
            (∀ j, i ≤ j → j < s.hit_index → ¬ Live valid tags tag j)) ∨
         (s.hit = false ∧ s.hit_index = -1 ∧ s.dirty = dirty ∧
            (∀ j, i ≤ j → j < i + n → ¬ Live valid tags tag j) ∧
            ((s.invalid_index = inv ∧ ∀ j, i ≤ j → j < i + n → rd valid j ≠ some 0) ∨
             (i ≤ s.invalid_index ∧ s.invalid_index < i + n ∧
                rd valid s.invalid_index = some 0 ∧
                ∀ j, s.invalid_index < j → j < i + n → rd valid j ≠ some 0)))) := by
  intro n
  induction n with
  | zero =>
    intro i inv s h
    simp only [scanLoop, Option.some.injEq] at h
    subst h
    refine Or.inr ⟨rfl, rfl, rfl, ?_, Or.inl ⟨rfl, ?_⟩⟩
    · intro j h1 h2
      simp at h2
      omega
    · intro j h1 h2
      simp at h2
      omega
  | succ n ih =>
    intro i inv s h
    unfold scanLoop at h
    cases hrv : rd valid i with
    | none => simp [hrv] at h
    | some v =>
      simp only [hrv] at h
      by_cases hv0 : v = 0
      · rw [if_pos hv0] at h
        have hnl : ¬ Live valid tags tag i := by
          rintro ⟨⟨v1, hv1, hne⟩, _⟩
          rw [hrv] at hv1
          simp at hv1
          exact hne (hv1 ▸ hv0)
        rcases ih (i + 1) i s h with ⟨hh, h1, h2, h3, h4, h5⟩ | ⟨hh, h1, h2, h3, h4⟩
        · refine Or.inl ⟨hh, by omega, by push_cast; omega, h3, h4, ?_⟩
          intro j hj1 hj2
          by_cases hji : j = i
          · exact hji ▸ hnl
          · exact h5 j (by omega) hj2
        · refine Or.inr ⟨hh, h1, h2, ?_, Or.inr ?_⟩
          · intro j hj1 hj2
            by_cases hji : j = i
            · exact hji ▸ hnl
            · exact h3 j (by omega) (by push_cast at hj2; omega)
          · rcases h4 with ⟨e, hall⟩ | ⟨g1, g2, g3, g4⟩
            · refine ⟨by omega, by push_cast; omega, by rw [e, hrv, hv0], ?_⟩
              intro j hj1 hj2
              exact hall j (by omega) (by push_cast at hj2; omega)
            · refine ⟨by omega, by push_cast; omega, g3, ?_⟩
              intro j hj1 hj2
              exact g4 j hj1 (by push_cast at hj2; omega)
      · rw [if_neg hv0] at h
        cases hrt : rd tags i with
        | none => simp [hrt] at h
        | some t =>
          simp only [hrt] at h
          by_cases htt : t = tag
          · rw [if_neg (by simpa using htt)] at h
            cases hrd : rd dirty i with
            | none => simp [hrd] at h
            | some d =>
              simp only [hrd] at h
              cases hw : wr dirty i (Int.lor d type) with
              | none => simp [hw] at h
              | some dirty1 =>
                simp only [hw, Option.some.injEq] at h
                subst h
                refine Or.inl ⟨rfl, le_refl i, ?_, ⟨⟨v, hrv, hv0⟩, htt ▸ hrt⟩, ⟨d, hrd, hw⟩, ?_⟩
                · show i < i + ((n + 1 : Nat) : Int)
                  push_cast; omega
                · intro j hj1 hj2
                  exact absurd hj2 (by simp only [not_lt]; exact hj1)
          · rw [if_pos (by simpa using htt)] at h
            have hnl : ¬ Live valid tags tag i := by
              rintro ⟨_, ht1⟩
              rw [hrt] at ht1
              simp at ht1
              exact htt ht1
            have hnz : rd valid i ≠ some 0 := by
              rw [hrv]
              simp [hv0]
            rcases ih (i + 1) inv s h with ⟨hh, h1, h2, h3, h4, h5⟩ | ⟨hh, h1, h2, h3, h4⟩
            · refine Or.inl ⟨hh, by omega, by push_cast; omega, h3, h4, ?_⟩
              intro j hj1 hj2
              by_cases hji : j = i
              · exact hji ▸ hnl
              · exact h5 j (by omega) hj2
            · refine Or.inr ⟨hh, h1, h2, ?_, ?_⟩
              · intro j hj1 hj2
                by_cases hji : j = i
                · exact hji ▸ hnl
                · exact h3 j (by omega) (by push_cast at hj2; omega)
              · rcases h4 with ⟨e, hall⟩ | ⟨g1, g2, g3, g4⟩
                · refine Or.inl ⟨e, ?_⟩
                  intro j hj1 hj2
                  by_cases hji : j = i
                  · exact hji ▸ hnz
                  · exact hall j (by omega) (by push_cast at hj2; omega)
                · refine Or.inr ⟨by omega, by push_cast; omega, g3, ?_⟩
                  intro j hj1 hj2
                  exact g4 j hj1 (by push_cast at hj2; omega)

theorem max_element_index_sound (vec : List Int) (index offset k : Int)
    (h : max_element_index vec index offset = some k) (hk : 0 ≤ k) :
    FirstMax vec index offset k ∧ 0 ≤ index ∧ 1 ≤ offset ∧ index + offset ≤ vec.length := by
  by_cases hg : index < 0 ∨ (vec.length : Int) ≤ index ∨ offset ≤ 0
  · unfold max_element_index at h
    rw [if_pos hg] at h
    simp only [Option.some.injEq] at h
    omega
  · by_cases hb : (vec.length : Int) < index + offset
    · unfold max_element_index at h
      rw [if_neg hg, if_pos hb] at h
      simp at h
    · obtain ⟨k1, e1, e2⟩ := max_element_index_spec vec index offset (by omega) (by omega)
        (by omega)
      rw [h] at e1
      simp only [Option.some.injEq] at e1
      subst e1
      exact ⟨e2, by omega, by omega, by omega⟩

theorem priorityLoop_length (index new_index : Int) :
    ∀ (n : Nat) (priority p1 : List Int),
      priorityLoop index new_index n priority = some p1 → p1.length = priority.length := by
  intro n
  induction n with
  | zero =>
    intro priority p1 h
    simp only [priorityLoop, Option.some.injEq] at h
    rw [← h]
  | succ n ih =>
    intro priority p1 h
    unfold priorityLoop at h
    cases hp : rd priority index with
    | none => simp [hp] at h
    | some p =>
      cases hq : rd priority new_index with
      | none => simp [hp, hq] at h
      | some q =>
        simp only [hp, hq] at h
        by_cases hpq : p < q
        · rw [if_pos hpq] at h
          cases hw : wr priority index (p + 1) with
          | none => simp [hw] at h
          | some priority1 =>
            simp only [hw] at h
            rw [ih priority1 p1 h, wr_length _ _ _ _ hw]
        · rw [if_neg hpq] at h
          exact ih priority p1 h

theorem refill_sound (valid dirty tags priority : List Int)
    (type tag index associativity inv : Int) (r : RefillOut)
    (h : refill valid dirty tags priority type tag index associativity inv = some r) :
    (0 ≤ inv ∧ r.new_index = inv ∧ wr valid inv 1 = some r.valid ∧
        wr dirty inv type = some r.dirty ∧ wr tags inv tag = some r.tags ∧
        r.dirty_writeback = false) ∨
    (inv < 0 ∧ max_element_index priority index associativity = some r.new_index ∧
        r.valid = valid ∧
        ∃ d, rd dirty r.new_index = some d ∧ wr dirty r.new_index type = some r.dirty ∧
          wr tags r.new_index tag = some r.tags ∧ r.dirty_writeback = decide (d ≠ 0)) := by
  unfold refill at h
  by_cases hinv : 0 ≤ inv
  · rw [if_pos hinv] at h
    cases hv : wr valid inv 1 with
    | none => simp [hv] at h
    | some valid1 =>
      cases hd : wr dirty inv type with
      | none => simp [hv, hd] at h
      | some dirty1 =>
        cases ht : wr tags inv tag with
        | none => simp [hv, hd, ht] at h
        | some tags1 =>
          simp only [hv, hd, ht, Option.some.injEq] at h
          subst h
          exact Or.inl ⟨hinv, rfl, rfl, rfl, rfl, rfl⟩
  · rw [if_neg hinv] at h
    cases hm : max_element_index priority index associativity with
    | none => simp [hm] at h
    | some k =>
      cases hd : rd dirty k with
      | none => simp [hm, hd] at h
      | some d =>
        cases hw : wr dirty k type with
        | none => simp [hm, hd, hw] at h
        | some dirty1 =>
          cases ht : wr tags k tag with
          | none => simp [hm, hd, hw, ht] at h
          | some tags1 =>
            simp only [hm, hd, hw, ht, Option.some.injEq] at h
            subst h
            exact Or.inr ⟨by omega, rfl, rfl, d, hd, hw, ht, rfl⟩

theorem instructionCore_sound (c : CacheSimulator) (type : Int) (address : Nat)
    (c1 : CacheSimulator) (hit dwb : Bool) (k : Int)
    (h : c.instructionCore type address = some (c1, hit, dwb, k)) :
    ∃ index tag, c.get_index_bits address = some index ∧ c.get_tag_bits address = some tag ∧
      AccessSpec c type tag index c1 hit dwb k := by
  have ha : 1 ≤ c.associativity := by
    by_contra hn
    rw [instructionCore_none_of_assoc_le c type address (by omega)] at h
    simp at h
  have hcast : ((c.associativity.toNat : Nat) : Int) = c.associativity := by omega
  unfold CacheSimulator.instructionCore at h
  cases hi : c.get_index_bits address with
  | none => simp [hi] at h
  | some index =>
    cases ht : c.get_tag_bits address with
    | none => simp [hi, ht] at h
    | some tag =>
      simp only [hi, ht] at h
      refine ⟨index, tag, rfl, rfl, ?_⟩
      cases hs : scanLoop c.valid c.tags c.dirty type tag c.associativity.toNat index (-1) with
      | none => simp [hs] at h
      | some s =>
        simp only [hs] at h
        have hscan := scanLoop_sound c.valid c.tags c.dirty type tag _ _ _ s hs
        have hdef := scanLoop_miss_defined c.valid c.tags c.dirty type tag _ _ _ s hs
        rw [hcast] at hscan hdef
        cases hr : (if s.hit then some (RefillOut.mk c.valid s.dirty c.tags s.hit_index false)
             else refill c.valid s.dirty c.tags c.priority type tag index c.associativity
               s.invalid_index) with
        | none => simp [hr] at h
        | some r =>
          simp only [hr] at h
          cases hp : priorityLoop index r.new_index c.associativity.toNat c.priority with
          | none => simp [hp] at h
          | some p1 =>
            simp only [hp] at h
            cases hw : wr p1 r.new_index 1 with
            | none => simp [hw] at h
            | some p2 =>
              simp only [hw, Option.some.injEq, Prod.mk.injEq] at h
              obtain ⟨rfl, rfl, rfl, rfl⟩ := h
              have hlp : p2.length = c.priority.length := by
                rw [wr_length _ _ _ _ hw, priorityLoop_length _ _ _ _ _ hp]
              rcases hscan with ⟨hh, h1, h2, h3, ⟨d, h4, h5⟩, h6⟩ | ⟨hh, h1, h2, h3, h4⟩
              · rw [hh] at hr
                simp only [if_true, Option.some.injEq] at hr
                subst hr
                exact
                  { frame := rfl
                    range := ⟨h1, h2⟩
                    len_valid := rfl
                    len_tags := rfl
                    len_dirty := wr_length _ _ _ _ h5
                    len_priority := hlp
                    prio := ⟨p1, hp, hw⟩
                    cases := Or.inl ⟨hh, rfl, h3, h6, rfl, rfl, d, h4, h5⟩ }
              · rw [hh, h2] at hr
                simp only [Bool.false_eq_true, if_false] at hr
                rcases refill_sound _ _ _ _ _ _ _ _ _ _ hr with
                  ⟨r1, r2, r3, r4, r5, r6⟩ | ⟨r1, r2, r3, d, r4, r5, r6, r7⟩
                · rcases h4 with ⟨e, hall⟩ | ⟨g1, g2, g3, g4⟩
                  · omega
                  · rw [r2]
                    exact
                      { frame := rfl
                        range := ⟨g1, g2⟩
                        len_valid := wr_length _ _ _ _ r3
                        len_tags := wr_length _ _ _ _ r5
                        len_dirty := wr_length _ _ _ _ r4
                        len_priority := hlp
                        prio := ⟨p1, r2 ▸ hp, r2 ▸ hw⟩
                        cases := Or.inr ⟨hh, h3, hdef hh, r4, r5, Or.inl ⟨g3, g4, r3, r6⟩⟩ }
                · have hk0 : 0 ≤ r.new_index := (rd_bounds _ _ _ r4).1
                  obtain ⟨hfm, -, -, -⟩ := max_element_index_sound _ _ _ _ r2 hk0
                  rcases h4 with ⟨e, hall⟩ | ⟨g1, g2, g3, g4⟩
                  · exact
                      { frame := rfl
                        range := ⟨hfm.1, hfm.2.1⟩
                        len_valid := by rw [r3]
                        len_tags := wr_length _ _ _ _ r6
                        len_dirty := wr_length _ _ _ _ r5
                        len_priority := hlp
                        prio := ⟨p1, hp, hw⟩
                        cases := Or.inr ⟨hh, h3, hdef hh, r5, r6,
                          Or.inr ⟨hall, r3, hfm, d, r4, r7⟩⟩ }
                  · have := (rd_bounds _ _ _ g3).1
                    omega

/-! ## Sequences of accesses -/

theorem nat_lor_eq_zero_left (m n : Nat) (h : m ||| n = 0) : m = 0 := by
  apply Nat.eq_of_testBit_eq
  intro i
  have := Nat.testBit_or m n i
  rw [h] at this
  simp only [Nat.zero_testBit] at this ⊢
  cases hm : m.testBit i with
  | false => rfl
  | true => simp [hm] at this

theorem int_lor_ne_zero (d t : Int) (hd : d ≠ 0) : Int.lor d t ≠ 0 := by
  intro h
  cases d with
  | ofNat m =>
    cases t with
    | ofNat n =>
      simp only [Int.lor] at h
      have h1 : m ||| n = 0 := by exact_mod_cast h
      have := nat_lor_eq_zero_left m n h1
      exact hd (by simp [this])
    | negSucc n =>
      simp only [Int.lor] at h
      exact absurd h (by simp)
  | negSucc m =>
    cases t with
    | ofNat n =>
      simp only [Int.lor] at h
      exact absurd h (by simp)
    | negSucc n =>
      simp only [Int.lor] at h
      exact absurd h (by simp)

/-- An access that is not a refill of slot `k` leaves slot `k` valid and dirty. -/
theorem liveDirty_preserved (c : CacheSimulator) (type tag index : Int) (c1 : CacheSimulator)
    (hit dwb : Bool) (k1 k : Int) (hs : AccessSpec c type tag index c1 hit dwb k1)
    (hnot : ¬ (hit = false ∧ k1 = k)) (hv : c.SlotValid k) (hd : c.SlotDirty k) :
    c1.SlotValid k ∧ c1.SlotDirty k := by
  obtain ⟨v, hv1, hv2⟩ := hv
  obtain ⟨d, hd1, hd2⟩ := hd
  rcases hs.cases with ⟨hh, -, hl, hfirst, e1, e2, d1, g1, g2⟩ |
    ⟨hh, hnone, hdef, w1, w2, hbr⟩
  · refine ⟨⟨v, by rw [e1]; exact hv1, hv2⟩, ?_⟩
    by_cases hk : k = k1
    · subst hk
      rw [hd1] at g1
      simp only [Option.some.injEq] at g1
      subst g1
      exact ⟨_, rd_wr_same _ _ _ _ g2, int_lor_ne_zero d type hd2⟩
    · exact ⟨d, by rw [rd_wr_other _ _ _ _ _ g2 hk]; exact hd1, hd2⟩
  · have hk : k ≠ k1 := fun e => hnot ⟨hh, e.symm⟩
    refine ⟨?_, ⟨d, by rw [rd_wr_other _ _ _ _ _ w1 hk]; exact hd1, hd2⟩⟩
    rcases hbr with ⟨-, -, w3, -⟩ | ⟨-, e, -, -⟩
    · exact ⟨v, by rw [rd_wr_other _ _ _ _ _ w3 hk]; exact hv1, hv2⟩
    · exact ⟨v, by rw [e]; exact hv1, hv2⟩

theorem runAccesses_liveDirty (k : Int) :
    ∀ (accs : List (Int × Nat)) (c c2 : CacheSimulator) (outs : List (Bool × Bool × Int)),
      runAccesses c accs = some (c2, outs) →
      (∀ o ∈ outs, ¬ (o.1 = false ∧ o.2.2 = k)) → c.SlotValid k → c.SlotDirty k →
      c2.SlotValid k ∧ c2.SlotDirty k := by
  intro accs
  induction accs with
  | nil =>
    intro c c2 outs h _ hv hd
    simp only [runAccesses, Option.some.injEq, Prod.mk.injEq] at h
    obtain ⟨rfl, -⟩ := h
    exact ⟨hv, hd⟩
  | cons a rest ih =>
    intro c c2 outs h hno hv hd
    unfold runAccesses at h
    cases hc : c.instructionCore a.1 a.2 with
    | none => simp [hc] at h
    | some r =>
      obtain ⟨c1, hit, dwb, k1⟩ := r
      simp only [hc] at h
      cases hr : runAccesses c1 rest with
      | none => simp [hr] at h
      | some r2 =>
        obtain ⟨c3, outs1⟩ := r2
        simp only [hr, Option.some.injEq, Prod.mk.injEq] at h
        obtain ⟨rfl, rfl⟩ := h
        obtain ⟨index, tag, -, -, hspec⟩ := instructionCore_sound c a.1 a.2 c1 hit dwb k1 hc
        have hstep := liveDirty_preserved c a.1 tag index c1 hit dwb k1 k hspec
          (hno (hit, dwb, k1) (List.mem_cons_self _ _)) hv hd
        exact ih c1 c3 outs1 hr (fun o ho => hno o (List.mem_cons_of_mem _ ho)) hstep.1 hstep.2

/-- A miss that refills slot `k` with a store leaves slot `k` valid and dirty. -/
theorem store_refill_liveDirty (c : CacheSimulator) (type tag index : Int)
    (c1 : CacheSimulator) (dwb : Bool) (k : Int) (htype : type ≠ 0)
    (hs : AccessSpec c type tag index c1 false dwb k) : c1.SlotValid k ∧ c1.SlotDirty k := by
  rcases hs.cases with ⟨hh, -⟩ | ⟨-, hnone, hdef, w1, w2, hbr⟩
  · simp at hh
  · refine ⟨?_, ⟨type, rd_wr_same _ _ _ _ w1, htype⟩⟩
    rcases hbr with ⟨-, -, w3, -⟩ | ⟨hall, e, -, -⟩
    · exact ⟨1, rd_wr_same _ _ _ _ w3, by decide⟩
    · obtain ⟨v, hv⟩ := hdef k hs.range.1 hs.range.2
      refine ⟨v, by rw [e]; exact hv, ?_⟩
      intro hv0
      exact hall k hs.range.1 hs.range.2 (by rw [hv, hv0])

/-- A miss that refills a slot that is valid and dirty reports a dirty writeback. -/
theorem refill_of_liveDirty (c : CacheSimulator) (type tag index : Int)
    (c1 : CacheSimulator) (dwb : Bool) (k : Int)
    (hs : AccessSpec c type tag index c1 false dwb k) (hv : c.SlotValid k)
    (hd : c.SlotDirty k) : dwb = true := by
  obtain ⟨v, hv1, hv2⟩ := hv
  obtain ⟨d, hd1, hd2⟩ := hd
  rcases hs.cases with ⟨hh, -⟩ | ⟨-, -, -, -, -, hbr⟩
  · simp at hh
  · rcases hbr with ⟨h0, -⟩ | ⟨-, -, -, d1, g1, g2⟩
    · rw [hv1] at h0
      simp only [Option.some.injEq] at h0
      exact absurd h0 hv2
    · rw [hd1] at g1
      simp only [Option.some.injEq] at g1
      subst g1
      rw [g2]
      simpa using hd2

/-! ## Statistics of one call -/

theorem update_statistics_dirty_evictions (c : CacheSimulator) (itype icount : Int)
    (hit dwb : Bool) :
    (c.update_statistics itype icount hit dwb).stat_dirty_evictions =
      c.stat_dirty_evictions + (if dwb then 1 else 0) := by
  unfold CacheSimulator.update_statistics
  cases hit <;> cases dwb <;> by_cases h : itype = 0 <;> simp [h]

/-! ## Statistics on `int` counters and on exact integers -/

theorem addInt32_eq_some_iff (x y z : Int) :
    addInt32 x y = some z ↔ z = x + y ∧ InInt32 (x + y) := by
  unfold addInt32 InInt32
  split
  · rename_i h
    simp only [Option.some.injEq]
    constructor
    · intro e
      exact ⟨e.symm, h⟩
    · rintro ⟨e, -⟩
      exact e.symm
  · rename_i h
    constructor
    · intro e
      simp at e
    · rintro ⟨-, h1⟩
      exact absurd h1 h

/-- The method on `int` counters returns exactly when no addition overflows, and then its result
is the result on exact integers. -/
theorem update_statistics_int_eq_some_iff (c : CacheSimulator) (itype icount : Int)
    (hit dwb : Bool) (c1 : CacheSimulator) :
    c.update_statistics_int itype icount hit dwb = some c1 ↔
      c.NoOverflow itype icount hit dwb ∧ c.update_statistics itype icount hit dwb = c1 := by
  unfold CacheSimulator.update_statistics_int CacheSimulator.update_statistics
    CacheSimulator.NoOverflow
  cases hit <;> cases dwb <;> by_cases ht : itype = 0 <;>
    simp [ht, Option.bind_eq_some, Option.map_eq_some', addInt32_eq_some_iff,
      CacheSimulator.addCycles, CacheSimulator.addInstructions,
      CacheSimulator.incrMemoryAccesses, CacheSimulator.incrStoreHits,
      CacheSimulator.incrLoadHits, CacheSimulator.incrStoreMisses,
      CacheSimulator.incrLoadMisses, CacheSimulator.incrDirtyEvictions, and_assoc]

/-! ## Dirty writeback after a store refill -/

/-- C3 as stated fails when `stat_dirty_evictions` is at `INT_MAX`: on the two-way cache the store
`0x100` refills slot 2, the load `0x200` refills slot 3 and the load `0x600` evicts slot 2 with a
dirty writeback, but `update_statistics` called with that outcome overflows the counter - no
defined result, and `INT_MIN` on a wrapping machine - instead of raising it by 1. -/
theorem eviction_counter_overflows_at_int_max :
    ({ freshTwoWay with stat_dirty_evictions := 2147483647 } : CacheSimulator).instructionCore
        1 0x100 =
      some ({ twoWayAfterStore with stat_dirty_evictions := 2147483647 }, false, false, 2) ∧
    runAccesses { twoWayAfterStore with stat_dirty_evictions := 2147483647 } [(0, 0x200)] =
      some ({ twoWayAfterStoreLoad with stat_dirty_evictions := 2147483647 },
        [(false, false, 3)]) ∧
    ({ twoWayAfterStoreLoad with stat_dirty_evictions := 2147483647 } :
        CacheSimulator).instructionCore 0 0x600 =
      some ({ twoWayAfterEviction with stat_dirty_evictions := 2147483647 }, false, true, 2) ∧
    ({ twoWayAfterEviction with stat_dirty_evictions := 2147483647 } :
        CacheSimulator).update_statistics_int 0 1 false true = none ∧
    wrapInt32 (2147483647 + 1) = -2147483648 := by
  decide

/-- C3, amended: if a store (kind nonzero) misses and refills slot `k`, and a further sequence of
returning accesses contains no refill of slot `k`, then the next access that misses and refills
slot `k` returns `dirty_writeback = true`; and `update_statistics` called with that outcome on the
`int` counters, when none of its additions overflows, returns and raises `stat_dirty_evictions` by
exactly 1. -/
theorem store_refill_then_eviction_writes_back (c0 : CacheSimulator) (type0 : Int)
    (address0 : Nat) (c1 : CacheSimulator) (dwb0 : Bool) (k : Int) (accs : List (Int × Nat))
    (c2 : CacheSimulator) (outs : List (Bool × Bool × Int)) (typeF : Int) (addressF : Nat)
    (c3 : CacheSimulator) (dwbF : Bool) (hstore : type0 ≠ 0)
    (h0 : c0.instructionCore type0 address0 = some (c1, false, dwb0, k))
    (hrun : runAccesses c1 accs = some (c2, outs))
    (hno : ∀ o ∈ outs, ¬ (o.1 = false ∧ o.2.2 = k))
    (hF : c2.instructionCore typeF addressF = some (c3, false, dwbF, k)) :
    dwbF = true ∧ c2.instruction typeF addressF = some (c3, false, true) ∧
      (∀ icount c4, c3.update_statistics_int typeF icount false dwbF = some c4 →
        c4.stat_dirty_evictions = c3.stat_dirty_evictions + 1) ∧
      (∀ icount, c3.NoOverflow typeF icount false dwbF →
        ∃ c4, c3.update_statistics_int typeF icount false dwbF = some c4) := by
  obtain ⟨i0, t0, -, -, hs0⟩ := instructionCore_sound c0 type0 address0 c1 false dwb0 k h0
  obtain ⟨hv1, hd1⟩ := store_refill_liveDirty c0 type0 t0 i0 c1 dwb0 k hstore hs0
  obtain ⟨hv2, hd2⟩ := runAccesses_liveDirty k accs c1 c2 outs hrun hno hv1 hd1
  obtain ⟨iF, tF, -, -, hsF⟩ := instructionCore_sound c2 typeF addressF c3 false dwbF k hF
  have hdwb : dwbF = true := refill_of_liveDirty c2 typeF tF iF c3 dwbF k hsF hv2 hd2
  subst hdwb
  refine ⟨rfl, instruction_of_core _ _ _ _ _ _ _ hF, ?_, ?_⟩
  · intro icount c4 h4
    obtain ⟨-, e⟩ := (update_statistics_int_eq_some_iff c3 typeF icount false true c4).mp h4
    rw [← e, update_statistics_dirty_evictions]
    simp
  · intro icount hno4
    exact ⟨_, (update_statistics_int_eq_some_iff c3 typeF icount false true _).mpr ⟨hno4, rfl⟩⟩

/-- C3, amended, on the two-way cache: the store `0x100` refills slot 2, the load `0x200` refills
slot 3, the load `0x600` then evicts slot 2 with a dirty writeback, and the eviction counter goes
from 0 to 1. -/
theorem store_refill_then_eviction_writes_back_witness :
    freshTwoWay.instructionCore 1 0x100 = some (twoWayAfterStore, false, false, 2) ∧
    runAccesses twoWayAfterStore [(0, 0x200)] =
      some (twoWayAfterStoreLoad, [(false, false, 3)]) ∧
    twoWayAfterStoreLoad.instructionCore 0 0x600 = some (twoWayAfterEviction, false, true, 2) ∧
    (twoWayAfterEviction.update_statistics_int 0 1 false true).map
        (fun c => c.stat_dirty_evictions) = some 1 ∧
    (true = true ∧
      twoWayAfterStoreLoad.instruction 0 0x600 = some (twoWayAfterEviction, false, true) ∧
      (∀ icount c4, twoWayAfterEviction.update_statistics_int 0 icount false true = some c4 →
        c4.stat_dirty_evictions = twoWayAfterEviction.stat_dirty_evictions + 1) ∧
      (∀ icount, twoWayAfterEviction.NoOverflow 0 icount false true →
        ∃ c4, twoWayAfterEviction.update_statistics_int 0 icount false true = some c4)) :=
  ⟨by decide, by decide, by decide, by decide,
    store_refill_then_eviction_writes_back freshTwoWay 1 0x100 twoWayAfterStore false 2
      [(0, 0x200)] twoWayAfterStoreLoad [(false, false, 3)] 0 0x600 twoWayAfterEviction true
      (by decide) (by decide) (by decide) (by decide) (by decide)⟩

/-! ## Overlapping slot ranges when `associativity > 1` -/

/-- C2 evaluated on the two-way cache (`-a 2 -l 256 -s 1`): after the store `0x400`, the store
`A = 0x100` has set index 1; the stores `0x200` and `0x600` have set index 2; yet the repeated
store `A` misses and reports a dirty writeback, because the ranges `[1, 3)` and `[2, 4)` share
slot 2. -/
theorem repeated_access_two_way_misses :
    CacheSimulator.construct 256 2 256 1 30 2 = some freshTwoWay ∧
    freshTwoWay.get_index_bits 0x100 = some 1 ∧
    freshTwoWay.get_index_bits 0x200 = some 2 ∧
    freshTwoWay.get_index_bits 0x600 = some 2 ∧
    (runAccesses freshTwoWay [(1, 0x400), (1, 0x100), (1, 0x200), (1, 0x600), (1, 0x100)]).map
        Prod.snd =
      some [(false, false, 1), (false, false, 2), (false, false, 3), (false, true, 2),
        (false, true, 1)] := by
  decide

/-- C4 evaluated on the two-way cache: the load `0x500` has set index `s = 1`, whose group is
slots `[2, 4)`, but after the load `0x100` it scans slots 1 and 2 and refills slot 1. -/
theorem refill_outside_group_two_way :
    freshTwoWay.get_index_bits 0x100 = some 1 ∧
    freshTwoWay.get_index_bits 0x500 = some 1 ∧
    runAccesses freshTwoWay [(0, 0x100), (0, 0x500)] =
      some ({ freshTwoWay with tags := [0, 2, 0, 0], valid := [0, 1, 1, 0],
                               priority := [0, 1, 1, 0] },
        [(false, false, 2), (false, false, 1)]) ∧
    ¬ (1 * freshTwoWay.associativity ≤ 1 ∧ (1 : Int) < (1 + 1) * freshTwoWay.associativity) := by
  decide

/-! ## Statistics along the driver loop -/

theorem instruction_frame (c : CacheSimulator) (type : Int) (address : Nat)
    (c1 : CacheSimulator) (hit dwb : Bool)
    (h : c.instruction type address = some (c1, hit, dwb)) :
    c1 = { c with valid := c1.valid, dirty := c1.dirty, tags := c1.tags,
                  priority := c1.priority } := by
  obtain ⟨k, hk⟩ := core_of_instruction c type address c1 hit dwb h
  obtain ⟨index, tag, -, -, hs⟩ := instructionCore_sound c type address c1 hit dwb k hk
  exact hs.frame

theorem update_statistics_counts (c : CacheSimulator) (itype icount : Int) (hit dwb : Bool) :
    (c.update_statistics itype icount hit dwb).stat_memory_accesses =
        c.stat_memory_accesses + 1 ∧
      (c.update_statistics itype icount hit dwb).hitMissTotal = c.hitMissTotal + 1 := by
  unfold CacheSimulator.update_statistics CacheSimulator.hitMissTotal
  cases hit <;> cases dwb <;> by_cases h : itype = 0 <;> simp [h] <;> omega

theorem driverStep_counts (c c1 : CacheSimulator) (r : TraceRecord)
    (h : driverStep c r = some c1) :
    c1.stat_memory_accesses = c.stat_memory_accesses + 1 ∧
      c1.hitMissTotal = c.hitMissTotal + 1 := by
  unfold driverStep at h
  cases hi : c.instruction r.loadstore (r.address % 4294967296) with
  | none => simp [hi] at h
  | some res =>
    obtain ⟨c2, hit, dwb⟩ := res
    simp only [hi, Option.some.injEq] at h
    subst h
    have hf := instruction_frame c _ _ c2 hit dwb hi
    obtain ⟨e1, e2⟩ := update_statistics_counts c2 r.loadstore r.icount hit dwb
    rw [e1, e2, hf]
    exact ⟨rfl, rfl⟩

theorem driverLoop_counts :
    ∀ (trace : List TraceRecord) (c c1 : CacheSimulator), driverLoop c trace = some c1 →
      c1.stat_memory_accesses = c.stat_memory_accesses + trace.length ∧
        c1.hitMissTotal = c.hitMissTotal + trace.length := by
  intro trace
  induction trace with
  | nil =>
    intro c c1 h
    simp only [driverLoop, Option.some.injEq] at h
    subst h
    simp
  | cons r rest ih =>
    intro c c1 h
    unfold driverLoop at h
    cases hs : driverStep c r with
    | none => simp [hs] at h
    | some c2 =>
      simp only [hs] at h
      obtain ⟨e1, e2⟩ := driverStep_counts c c2 r hs
      obtain ⟨f1, f2⟩ := ih c2 c1 h
      rw [f1, f2, e1, e2]
      simp only [List.length_cons]
      push_cast
      constructor <;> ring

/-! ## Freshly constructed simulators -/

theorem log2Fuel_pow_le : ∀ (fuel n : Nat), 1 ≤ n → 2 ^ log2Fuel fuel n ≤ n := by
  intro fuel
  induction fuel with
  | zero =>
    intro n hn
    simpa [log2Fuel] using hn
  | succ fuel ih =>
    intro n hn
    unfold log2Fuel
    by_cases h : n < 2
    · rw [if_pos h]
      simpa using hn
    · rw [if_neg h]
      have h1 := ih (n / 2) (by omega)
      rw [pow_succ]
      omega

theorem ilog2_nonneg (x : Int) : 0 ≤ ilog2 x := by
  unfold ilog2
  exact Int.natCast_nonneg _

theorem ilog2_pow_le (x : Int) (hx : 1 ≤ x) : (2 : Int) ^ (ilog2 x).toNat ≤ x := by
  unfold ilog2
  have h := log2Fuel_pow_le 32 x.toNat (by omega)
  have h2 : ((2 ^ log2Fuel 32 x.toNat : Nat) : Int) ≤ (x.toNat : Int) := by exact_mod_cast h
  rw [Int.toNat_natCast]
  push_cast at h2
  omega

theorem pow_two_lt_bound (e : Nat) (h : (2 : Int) ^ e < 2147483648) : e < 31 := by
  by_contra hn
  have h1 : (2 : Int) ^ 31 ≤ 2 ^ e := pow_le_pow_right₀ (by norm_num) (by omega)
  norm_num at h1
  omega

theorem construct_fields (g a bs cs mp dwp : Int) (c : CacheSimulator)
    (h : CacheSimulator.construct g a bs cs mp dwp = some c) :
    (1024 * cs ≤ 2147483647 ∧ 0 < g ∧ 0 < Int.tdiv (Int.tdiv (1024 * cs) g) a ∧
      0 ≤ Int.tdiv (1024 * cs) g) ∧
    c.associativity = a ∧ c.blocksize_byte = bs ∧ c.cachesize_kb = cs ∧ c.miss_penalty = mp ∧
    c.dirty_write_penalty = dwp ∧ c.num_blocks = Int.tdiv (1024 * cs) g ∧
    c.num_sets = Int.tdiv (Int.tdiv (1024 * cs) g) a ∧ c.num_offset_bits = ilog2 g ∧
    c.num_index_bits = ilog2 (Int.tdiv (Int.tdiv (1024 * cs) g) a) ∧
    c.tag_mask = ilog2 (Int.tdiv (Int.tdiv (1024 * cs) g) a) + ilog2 g ∧
    c.tags = List.replicate (Int.tdiv (1024 * cs) g).toNat 0 ∧
    c.valid = List.replicate (Int.tdiv (1024 * cs) g).toNat 0 ∧
    c.priority = List.replicate (Int.tdiv (1024 * cs) g).toNat 0 ∧
    c.dirty = List.replicate (Int.tdiv (1024 * cs) g).toNat 0 ∧ c.ZeroStats := by
  unfold CacheSimulator.construct at h
  split at h
  · simp at h
  · rename_i h1
    split at h
    · simp at h
    · rename_i h2
      simp only at h
      split at h
      · simp at h
      · rename_i h3
        split at h
        · simp at h
        · rename_i h4
          simp only [Option.some.injEq] at h
          subst h
          refine ⟨⟨by omega, by omega, by omega, by omega⟩, rfl, rfl, rfl, rfl, rfl, rfl, rfl,
            rfl, rfl, rfl, rfl, rfl, rfl, rfl, ?_⟩
          exact ⟨rfl, rfl, rfl, rfl, rfl, rfl, rfl, rfl⟩

theorem construct_wellFormed (g a bs cs mp dwp : Int) (c : CacheSimulator)
    (h : CacheSimulator.construct g a bs cs mp dwp = some c) : WellFormed c := by
  obtain ⟨⟨hov, hg, hns, hnb⟩, ea, -, -, -, -, enb, -, eob, -, etm, et, ev, ep, ed, -⟩ :=
    construct_fields g a bs cs mp dwp c h
  set nb := Int.tdiv (1024 * cs) g with hnbdef
  set ns := Int.tdiv nb a with hnsdef
  -- the number of blocks is positive
  have hnbpos : 0 < nb := by
    rcases lt_or_eq_of_le hnb with hlt | heq
    · exact hlt
    · rw [hnsdef, ← heq] at hns
      simp at hns
  -- the associativity is positive
  have hapos : 0 < a := by
    by_contra hn
    have := Int.tdiv_nonpos hnb (not_lt.mp hn)
    omega
  -- the product is non-negative
  have hprod : 0 ≤ 1024 * cs := by
    by_contra hn
    have h1 : Int.tdiv (-(1024 * cs)) g = -nb := by rw [Int.neg_tdiv]
    have h2 : 0 ≤ Int.tdiv (-(1024 * cs)) g := Int.tdiv_nonneg (by omega) (le_of_lt hg)
    omega
  have hnbe : nb = 1024 * cs / g := Int.tdiv_eq_ediv hprod (le_of_lt hg)
  have hnse : ns = nb / a := Int.tdiv_eq_ediv hnb (le_of_lt hapos)
  have hnbg : nb * g ≤ 1024 * cs := by
    rw [hnbe]
    exact Int.ediv_mul_le _ (by omega)
  have hnsa : ns * a ≤ nb := by
    rw [hnse]
    exact Int.ediv_mul_le _ (by omega)
  have ha_le : a ≤ nb := by nlinarith
  have hns_le : ns ≤ nb := by nlinarith
  have hnb_lt : nb < 2147483648 := by nlinarith
  have hg_lt : g < 2147483648 := by nlinarith
  have hnsg : ns * g < 2147483648 := by nlinarith
  have hpo := ilog2_pow_le g (by omega)
  have hpi := ilog2_pow_le ns (by omega)
  have hob : (ilog2 g).toNat < 31 := pow_two_lt_bound _ (by omega)
  have htm : (ilog2 ns).toNat + (ilog2 g).toNat < 31 := by
    apply pow_two_lt_bound
    rw [pow_add]
    have h2pos : (0 : Int) < 2 ^ (ilog2 g).toNat := by positivity
    have h3pos : (0 : Int) < 2 ^ (ilog2 ns).toNat := by positivity
    nlinarith
  have hnn1 := ilog2_nonneg g
  have hnn2 := ilog2_nonneg ns
  exact
    { assoc_pos := by rw [ea]; omega
      blocks_ge := by rw [ea, enb]; exact ha_le
      blocks_lt := by rw [enb]; exact hnb_lt
      offset_ok := by rw [eob]; omega
      tag_ok := by rw [etm]; omega
      len_valid := by rw [ev, enb]; simp; omega
      len_tags := by rw [et, enb]; simp; omega
      len_dirty := by rw [ed, enb]; simp; omega
      len_priority := by rw [ep, enb]; simp; omega }

theorem toInt32_of_lt (n : Nat) (h : n < 2147483648) : toInt32 n = (n : Int) := by
  unfold toInt32
  have : n % 4294967296 = n := Nat.mod_eq_of_lt (by omega)
  rw [this, if_pos h]

theorem get_index_bits_bounds (c : CacheSimulator) (hw : WellFormed c) (address : Nat) :
    ∃ index, c.get_index_bits address = some index ∧ 0 ≤ index ∧ index < c.num_blocks := by
  have h1 := hw.assoc_pos
  have h2 := hw.blocks_ge
  have h3 := hw.blocks_lt
  have hm : toUInt32 (c.num_blocks - 1) = (c.num_blocks - 1).toNat := by
    unfold toUInt32
    rw [Int.emod_eq_of_lt (by omega) (by omega)]
  have hle : (address >>> c.num_offset_bits.toNat) &&& toUInt32 (c.num_blocks - 1) ≤
      (c.num_blocks - 1).toNat := by
    rw [hm]
    exact Nat.and_le_right
  refine ⟨_, by unfold CacheSimulator.get_index_bits; rw [if_pos hw.offset_ok], ?_, ?_⟩
  · rw [toInt32_of_lt _ (by omega)]
    exact Int.natCast_nonneg _
  · rw [toInt32_of_lt _ (by omega)]
    omega

theorem get_tag_bits_defined (c : CacheSimulator) (hw : WellFormed c) (address : Nat) :
    ∃ tag, c.get_tag_bits address = some tag :=
  ⟨_, by unfold CacheSimulator.get_tag_bits; rw [if_pos hw.tag_ok]⟩

/-- In a direct-mapped well-formed state every address scans a range inside the vectors. -/
theorem direct_mapped_in_bounds (c : CacheSimulator) (hw : WellFormed c)
    (ha : c.associativity = 1) (address : Nat) :
    ∃ index tag, c.get_index_bits address = some index ∧ c.get_tag_bits address = some tag ∧
      c.RangeInBounds index := by
  obtain ⟨index, hi, h0, h1⟩ := get_index_bits_bounds c hw address
  obtain ⟨tag, ht⟩ := get_tag_bits_defined c hw address
  refine ⟨index, tag, hi, ht, h0, ?_, ?_, ?_, ?_⟩
  · rw [ha, hw.len_valid]; omega
  · rw [ha, hw.len_tags]; omega
  · rw [ha, hw.len_dirty]; omega
  · rw [ha, hw.len_priority]; omega

theorem sameShape_trans (c c1 c2 : CacheSimulator) (h1 : SameShape c c1)
    (h2 : SameShape c1 c2) : SameShape c c2 := by
  obtain ⟨a1, a2, a3, a4, a5, a6, a7, a8⟩ := h1
  obtain ⟨b1, b2, b3, b4, b5, b6, b7, b8⟩ := h2
  exact ⟨b1.trans a1, b2.trans a2, b3.trans a3, b4.trans a4, b5.trans a5, b6.trans a6,
    b7.trans a7, b8.trans a8⟩

theorem accessSpec_sameShape (c : CacheSimulator) (type tag index : Int) (c1 : CacheSimulator)
    (hit dwb : Bool) (k : Int) (hs : AccessSpec c type tag index c1 hit dwb k) :
    SameShape c c1 := by
  have hf := hs.frame
  refine ⟨?_, ?_, ?_, ?_, hs.len_valid, hs.len_tags, hs.len_dirty, hs.len_priority⟩
  · rw [hf]
  · rw [hf]
  · rw [hf]
  · rw [hf]

theorem update_statistics_sameShape (c : CacheSimulator) (itype icount : Int) (hit dwb : Bool) :
    SameShape c (c.update_statistics itype icount hit dwb) := by
  unfold CacheSimulator.update_statistics SameShape
  cases hit <;> cases dwb <;> by_cases h : itype = 0 <;> simp [h]

theorem update_statistics_vectors (c : CacheSimulator) (itype icount : Int) (hit dwb : Bool) :
    (c.update_statistics itype icount hit dwb).valid = c.valid ∧
    (c.update_statistics itype icount hit dwb).tags = c.tags ∧
    (c.update_statistics itype icount hit dwb).dirty = c.dirty ∧
    (c.update_statistics itype icount hit dwb).priority = c.priority ∧
    (c.update_statistics itype icount hit dwb).miss_penalty = c.miss_penalty ∧
    (c.update_statistics itype icount hit dwb).dirty_write_penalty = c.dirty_write_penalty := by
  unfold CacheSimulator.update_statistics
  cases hit <;> cases dwb <;> by_cases h : itype = 0 <;> simp [h]

theorem wellFormed_of_sameShape (c c1 : CacheSimulator) (hw : WellFormed c)
    (h : SameShape c c1) : WellFormed c1 := by
  obtain ⟨a1, a2, a3, a4, a5, a6, a7, a8⟩ := h
  exact
    { assoc_pos := by rw [a1]; exact hw.assoc_pos
      blocks_ge := by rw [a1, a2]; exact hw.blocks_ge
      blocks_lt := by rw [a2]; exact hw.blocks_lt
      offset_ok := by rw [a3]; exact hw.offset_ok
      tag_ok := by rw [a4]; exact hw.tag_ok
      len_valid := by rw [a5, a2]; exact hw.len_valid
      len_tags := by rw [a6, a2]; exact hw.len_tags
      len_dirty := by rw [a7, a2]; exact hw.len_dirty
      len_priority := by rw [a8, a2]; exact hw.len_priority }

theorem accessInBounds_of_sameShape (c c1 : CacheSimulator) (address : Nat)
    (h : SameShape c c1) (hb : c.AccessInBounds address) : c1.AccessInBounds address := by
  obtain ⟨a1, a2, a3, a4, a5, a6, a7, a8⟩ := h
  obtain ⟨ha, index, tag, hi, ht, h0, b1, b2, b3, b4⟩ := hb
  refine ⟨by rw [a1]; exact ha, index, tag, ?_, ?_, h0, ?_, ?_, ?_, ?_⟩
  · unfold CacheSimulator.get_index_bits at hi ⊢
    rw [a2, a3]
    exact hi
  · unfold CacheSimulator.get_tag_bits at ht ⊢
    rw [a4]
    exact ht
  · rw [a1, a5]; exact b1
  · rw [a1, a6]; exact b2
  · rw [a1, a7]; exact b3
  · rw [a1, a8]; exact b4

theorem instruction_total (c : CacheSimulator) (type : Int) (address : Nat)
    (hb : c.AccessInBounds address) :
    ∃ c1 hit dwb, c.instruction type address = some (c1, hit, dwb) ∧ SameShape c c1 := by
  obtain ⟨ha, index, tag, hi, ht, hr⟩ := hb
  obtain ⟨c1, hit, dwb, k, hcore, hs⟩ := instructionCore_spec c type address index tag hi ht hr ha
  exact ⟨c1, hit, dwb, instruction_of_core _ _ _ _ _ _ _ hcore, accessSpec_sameShape _ _ _ _ _ _ _ _ hs⟩

theorem driverStep_sameShape (c c1 : CacheSimulator) (r : TraceRecord)
    (h : driverStep c r = some c1) : SameShape c c1 := by
  unfold driverStep at h
  cases hi : c.instruction r.loadstore (r.address % 4294967296) with
  | none => simp [hi] at h
  | some res =>
    obtain ⟨c2, hit, dwb⟩ := res
    simp only [hi, Option.some.injEq] at h
    subst h
    obtain ⟨k, hk⟩ := core_of_instruction c _ _ c2 hit dwb hi
    obtain ⟨index, tag, -, -, hs⟩ := instructionCore_sound c _ _ c2 hit dwb k hk
    exact sameShape_trans _ _ _ (accessSpec_sameShape _ _ _ _ _ _ _ _ hs) (update_statistics_sameShape _ _ _ _ _)

theorem driverLoop_total :
    ∀ (trace : List TraceRecord) (c : CacheSimulator),
      (∀ r ∈ trace, c.AccessInBounds (r.address % 4294967296)) →
      ∃ c1, driverLoop c trace = some c1 := by
  intro trace
  induction trace with
  | nil =>
    intro c _
    exact ⟨c, rfl⟩
  | cons r rest ih =>
    intro c hb
    obtain ⟨c1, hit, dwb, hi, -⟩ := instruction_total c r.loadstore (r.address % 4294967296)
      (hb r (List.mem_cons_self _ _))
    have hstep : driverStep c r = some (c1.update_statistics r.loadstore r.icount hit dwb) := by
      simp [driverStep, hi]
    have hsh := driverStep_sameShape _ _ _ hstep
    obtain ⟨c2, h2⟩ := ih (c1.update_statistics r.loadstore r.icount hit dwb)
      (fun r1 hr1 => accessInBounds_of_sameShape _ _ _ hsh (hb r1 (List.mem_cons_of_mem _ hr1)))
    exact ⟨c2, by simp [driverLoop, hstep, h2]⟩

/-- C5: along the driver loop from a freshly constructed simulator, `stat_memory_accesses` is the
number of records processed and the four hit and miss counters add up to it; the loop processes
every trace whose accesses are in bounds. -/
theorem driver_counts_records (g a bs cs mp dwp : Int) (c0 : CacheSimulator)
    (hc : CacheSimulator.construct g a bs cs mp dwp = some c0) (trace : List TraceRecord) :
    (∀ c, driverLoop c0 trace = some c →
      c.stat_memory_accesses = trace.length ∧
      c.stat_load_hits + c.stat_load_misses + c.stat_store_hits + c.stat_store_misses =
        c.stat_memory_accesses) ∧
    ((∀ r ∈ trace, c0.AccessInBounds (r.address % 4294967296)) →
      ∃ c, driverLoop c0 trace = some c) := by
  obtain ⟨-, -, -, -, -, -, -, -, -, -, -, -, -, -, -, hz⟩ := construct_fields g a bs cs mp dwp c0 hc
  obtain ⟨-, -, z3, -, z5, z6, z7, z8⟩ := hz
  refine ⟨?_, driverLoop_total trace c0⟩
  intro c hrun
  obtain ⟨e1, e2⟩ := driverLoop_counts trace c0 c hrun
  unfold CacheSimulator.hitMissTotal at e2
  rw [z5, z6, z7, z8] at e2
  rw [z3] at e1
  constructor
  · rw [e1]; simp
  · rw [e1, e2]; simp

/-- C5 at the direct-mapped example and the trace `load 0x0; load 0x0`. -/
theorem driver_counts_records_witness :
    CacheSimulator.construct 32 1 32 1 30 2 = some freshDirectMapped ∧
    ((∀ c, driverLoop freshDirectMapped [⟨0, 0, 1⟩, ⟨0, 0, 1⟩] = some c →
      c.stat_memory_accesses = ([⟨0, 0, 1⟩, ⟨0, 0, 1⟩] : List TraceRecord).length ∧
      c.stat_load_hits + c.stat_load_misses + c.stat_store_hits + c.stat_store_misses =
        c.stat_memory_accesses) ∧
    ((∀ r ∈ ([⟨0, 0, 1⟩, ⟨0, 0, 1⟩] : List TraceRecord),
        freshDirectMapped.AccessInBounds (r.address % 4294967296)) →
      ∃ c, driverLoop freshDirectMapped [⟨0, 0, 1⟩, ⟨0, 0, 1⟩] = some c)) :=
  ⟨by decide, driver_counts_records 32 1 32 1 30 2 freshDirectMapped (by decide) _⟩

/-! ## The counters after one call of `update_statistics` -/

theorem update_statistics_hit_miss (c : CacheSimulator) (itype icount : Int)
    (hit dirty_writeback : Bool) :
    (c.update_statistics itype icount hit dirty_writeback).stat_load_hits =
        c.stat_load_hits + (if itype = 0 ∧ hit = true then 1 else 0) ∧
    (c.update_statistics itype icount hit dirty_writeback).stat_store_hits =
        c.stat_store_hits + (if itype ≠ 0 ∧ hit = true then 1 else 0) ∧
    (c.update_statistics itype icount hit dirty_writeback).stat_load_misses =
        c.stat_load_misses + (if itype = 0 ∧ hit = false then 1 else 0) ∧
    (c.update_statistics itype icount hit dirty_writeback).stat_store_misses =
        c.stat_store_misses + (if itype ≠ 0 ∧ hit = false then 1 else 0) := by
  unfold CacheSimulator.update_statistics
  cases hit <;> cases dirty_writeback <;> by_cases h : itype = 0 <;> simp [h]

/-- C6 as stated fails for a counter at `INT_MAX`: with `stat_load_hits = 2147483647` the call
`update_statistics(0, 1, true, false)` overflows `stat_load_hits++` - no defined result, and
`INT_MIN` on a wrapping machine - instead of raising the counter by 1. -/
theorem update_statistics_counter_overflows :
    ({ freshDirectMapped with stat_load_hits := 2147483647 } :
        CacheSimulator).update_statistics_int 0 1 true false = none ∧
    ¬ ((2147483647 : Int) + 1 ≤ 2147483647) ∧
    wrapInt32 (2147483647 + 1) = -2147483648 := by
  decide

/-- C6, amended: on the `int` counters, whenever no addition of the call overflows,
`update_statistics` returns and adds 1 to exactly one of `stat_load_hits`, `stat_store_hits`,
`stat_load_misses`, `stat_store_misses` - the one selected by `(itype = 0, hit)` - and leaves the
other three unchanged. -/
theorem update_statistics_one_counter (c : CacheSimulator) (itype icount : Int)
    (hit dirty_writeback : Bool) :
    (∀ c1, c.update_statistics_int itype icount hit dirty_writeback = some c1 →
      c1.stat_load_hits = c.stat_load_hits + (if itype = 0 ∧ hit = true then 1 else 0) ∧
      c1.stat_store_hits = c.stat_store_hits + (if itype ≠ 0 ∧ hit = true then 1 else 0) ∧
      c1.stat_load_misses = c.stat_load_misses + (if itype = 0 ∧ hit = false then 1 else 0) ∧
      c1.stat_store_misses =
        c.stat_store_misses + (if itype ≠ 0 ∧ hit = false then 1 else 0)) ∧
    (c.NoOverflow itype icount hit dirty_writeback →
      ∃ c1, c.update_statistics_int itype icount hit dirty_writeback = some c1) := by
  constructor
  · intro c1 h
    obtain ⟨-, e⟩ :=
      (update_statistics_int_eq_some_iff c itype icount hit dirty_writeback c1).mp h
    rw [← e]
    unfold CacheSimulator.update_statistics
    cases hit <;> cases dirty_writeback <;> by_cases h0 : itype = 0 <;> simp [h0]
  · intro hno
    exact ⟨_, (update_statistics_int_eq_some_iff c itype icount hit dirty_writeback _).mpr
      ⟨hno, rfl⟩⟩

/-- C6, amended, at the fresh direct-mapped cache: a load miss of 3 instructions. -/
theorem update_statistics_one_counter_witness :
    freshDirectMapped.update_statistics_int 0 3 false false =
      some { freshDirectMapped with stat_cycles := 33, stat_instructions := 3,
                                    stat_memory_accesses := 1, stat_load_misses := 1 } ∧
    ((∀ c1, freshDirectMapped.update_statistics_int 0 3 false false = some c1 →
      c1.stat_load_hits =
        freshDirectMapped.stat_load_hits + (if (0 : Int) = 0 ∧ false = true then 1 else 0) ∧
      c1.stat_store_hits =
        freshDirectMapped.stat_store_hits + (if (0 : Int) ≠ 0 ∧ false = true then 1 else 0) ∧
      c1.stat_load_misses =
        freshDirectMapped.stat_load_misses + (if (0 : Int) = 0 ∧ false = false then 1 else 0) ∧
      c1.stat_store_misses =
        freshDirectMapped.stat_store_misses +
          (if (0 : Int) ≠ 0 ∧ false = false then 1 else 0)) ∧
    (freshDirectMapped.NoOverflow 0 3 false false →
      ∃ c1, freshDirectMapped.update_statistics_int 0 3 false false = some c1)) :=
  ⟨by decide, update_statistics_one_counter freshDirectMapped 0 3 false false⟩

theorem update_statistics_cycles (c : CacheSimulator) (itype icount : Int) (hit dwb : Bool) :
    (c.update_statistics itype icount hit dwb).stat_cycles =
        c.stat_cycles + icount + (if hit = true then 0 else c.miss_penalty) +
          (if dwb = true then c.dirty_write_penalty else 0) ∧
    (c.update_statistics itype icount hit dwb).stat_instructions =
        c.stat_instructions + icount := by
  unfold CacheSimulator.update_statistics
  cases hit <;> cases dwb <;> by_cases h : itype = 0 <;> simp [h]

theorem update_statistics_cyclesAccounted (c : CacheSimulator) (itype icount : Int)
    (hit dwb : Bool) (h : c.CyclesAccounted) :
    (c.update_statistics itype icount hit dwb).CyclesAccounted := by
  obtain ⟨h1, h2, h3, h4⟩ := h
  obtain ⟨e1, e2, e3, e4⟩ := update_statistics_hit_miss c itype icount hit dwb
  obtain ⟨e5, e6⟩ := update_statistics_cycles c itype icount hit dwb
  have e7 := update_statistics_dirty_evictions c itype icount hit dwb
  obtain ⟨-, -, -, -, e8, e9⟩ := update_statistics_vectors c itype icount hit dwb
  unfold CacheSimulator.CyclesAccounted
  rw [e3, e4, e5, e6, e7, e8, e9, h1]
  cases hit <;> cases dwb <;> by_cases h0 : itype = 0 <;> simp [h0] <;>
    refine ⟨by ring, ?_, ?_, ?_⟩ <;> omega

theorem applyStatistics_cyclesAccounted :
    ∀ (calls : List (Int × Int × Bool × Bool)) (c : CacheSimulator), c.CyclesAccounted →
      (applyStatistics c calls).CyclesAccounted ∧
      (applyStatistics c calls).miss_penalty = c.miss_penalty ∧
      (applyStatistics c calls).dirty_write_penalty = c.dirty_write_penalty := by
  intro calls
  induction calls with
  | nil =>
    intro c h
    exact ⟨h, rfl, rfl⟩
  | cons call rest ih =>
    intro c h
    obtain ⟨-, -, -, -, e8, e9⟩ :=
      update_statistics_vectors c call.1 call.2.1 call.2.2.1 call.2.2.2
    obtain ⟨i1, i2, i3⟩ := ih _ (update_statistics_cyclesAccounted c call.1 call.2.1 call.2.2.1
      call.2.2.2 h)
    exact ⟨i1, i2.trans e8, i3.trans e9⟩

/-- C7: after any finite sequence of `update_statistics` calls from a zeroed accumulator,
`stat_cycles = stat_instructions + miss_penalty * (stat_load_misses + stat_store_misses) +
dirty_write_penalty * stat_dirty_evictions`; hence `stat_cycles ≥ stat_instructions` when both
penalties are non-negative. -/
theorem cycles_decomposition (c : CacheSimulator) (hz : c.ZeroStats)
    (calls : List (Int × Int × Bool × Bool)) :
    (applyStatistics c calls).stat_cycles =
        (applyStatistics c calls).stat_instructions +
        c.miss_penalty * ((applyStatistics c calls).stat_load_misses +
          (applyStatistics c calls).stat_store_misses) +
        c.dirty_write_penalty * (applyStatistics c calls).stat_dirty_evictions ∧
    (0 ≤ c.miss_penalty → 0 ≤ c.dirty_write_penalty →
      (applyStatistics c calls).stat_instructions ≤ (applyStatistics c calls).stat_cycles) := by
  obtain ⟨z1, z2, z3, z4, z5, z6, z7, z8⟩ := hz
  have h0 : c.CyclesAccounted := by
    unfold CacheSimulator.CyclesAccounted
    rw [z1, z2, z4, z5, z6]
    simp
  obtain ⟨⟨h1, h2, h3, h4⟩, e1, e2⟩ := applyStatistics_cyclesAccounted calls c h0
  rw [e1, e2] at h1
  refine ⟨h1, ?_⟩
  intro hmp hdwp
  rw [h1]
  have a1 : 0 ≤ c.miss_penalty * ((applyStatistics c calls).stat_load_misses +
      (applyStatistics c calls).stat_store_misses) := mul_nonneg hmp (by omega)
  have a2 : 0 ≤ c.dirty_write_penalty * (applyStatistics c calls).stat_dirty_evictions :=
    mul_nonneg hdwp h4
  omega

/-- C7 at the direct-mapped example: a load miss of 3 instructions, a store hit of 1 and a store
miss of 2 with a dirty writeback. -/
theorem cycles_decomposition_witness :
    freshDirectMapped.ZeroStats ∧
    ((applyStatistics freshDirectMapped
        [(0, 3, false, false), (1, 1, true, false), (1, 2, false, true)]).stat_cycles =
        (applyStatistics freshDirectMapped
          [(0, 3, false, false), (1, 1, true, false), (1, 2, false, true)]).stat_instructions +
        freshDirectMapped.miss_penalty * ((applyStatistics freshDirectMapped
          [(0, 3, false, false), (1, 1, true, false), (1, 2, false, true)]).stat_load_misses +
          (applyStatistics freshDirectMapped
          [(0, 3, false, false), (1, 1, true, false), (1, 2, false, true)]).stat_store_misses) +
        freshDirectMapped.dirty_write_penalty * (applyStatistics freshDirectMapped
          [(0, 3, false, false), (1, 1, true, false), (1, 2, false, true)]).stat_dirty_evictions ∧
    (0 ≤ freshDirectMapped.miss_penalty → 0 ≤ freshDirectMapped.dirty_write_penalty →
      (applyStatistics freshDirectMapped
          [(0, 3, false, false), (1, 1, true, false), (1, 2, false, true)]).stat_instructions ≤
      (applyStatistics freshDirectMapped
          [(0, 3, false, false), (1, 1, true, false), (1, 2, false, true)]).stat_cycles)) :=
  ⟨by unfold CacheSimulator.ZeroStats; decide,
    cycles_decomposition freshDirectMapped (by unfold CacheSimulator.ZeroStats; decide) _⟩

/-! ## Two loads of one address in a direct-mapped cache -/

theorem sameShape_decompose (c c1 : CacheSimulator) (address : Nat) (h : SameShape c c1) :
    c1.get_index_bits address = c.get_index_bits address ∧
      c1.get_tag_bits address = c.get_tag_bits address := by
  obtain ⟨a1, a2, a3, a4, -⟩ := h
  unfold CacheSimulator.get_index_bits CacheSimulator.get_tag_bits
  rw [a2, a3, a4]
  exact ⟨rfl, rfl⟩

theorem rangeInBounds_of_sameShape (c c1 : CacheSimulator) (index : Int) (h : SameShape c c1)
    (hb : c.RangeInBounds index) : c1.RangeInBounds index := by
  obtain ⟨a1, a2, a3, a4, a5, a6, a7, a8⟩ := h
  obtain ⟨h0, b1, b2, b3, b4⟩ := hb
  refine ⟨h0, ?_, ?_, ?_, ?_⟩
  · rw [a1, a5]; exact b1
  · rw [a1, a6]; exact b2
  · rw [a1, a7]; exact b3
  · rw [a1, a8]; exact b4

theorem frame_stats (c c1 : CacheSimulator)
    (h : c1 = { c with valid := c1.valid, dirty := c1.dirty, tags := c1.tags,
                       priority := c1.priority }) :
    c1.miss_penalty = c.miss_penalty ∧ c1.dirty_write_penalty = c.dirty_write_penalty ∧
    c1.stat_instructions = c.stat_instructions ∧ c1.stat_cycles = c.stat_cycles ∧
    c1.stat_memory_accesses = c.stat_memory_accesses ∧
    c1.stat_dirty_evictions = c.stat_dirty_evictions ∧
    c1.stat_load_misses = c.stat_load_misses ∧ c1.stat_store_misses = c.stat_store_misses ∧
    c1.stat_load_hits = c.stat_load_hits ∧ c1.stat_store_hits = c.stat_store_hits := by
  rw [h]
  exact ⟨rfl, rfl, rfl, rfl, rfl, rfl, rfl, rfl, rfl, rfl⟩

theorem rd_replicate_zero (n : Nat) (j v : Int) (h : rd (List.replicate n 0) j = some v) :
    v = 0 := by
  unfold rd at h
  split at h
  · rw [List.getElem?_replicate] at h
    split at h
    · simp only [Option.some.injEq] at h
      exact h.symm
    · simp at h
  · simp at h

/-- In a direct-mapped state, an access whose slot is invalid misses without writeback and leaves
the slot live with the tag of the address. -/
theorem direct_mapped_miss_on_invalid (c : CacheSimulator) (type : Int) (address : Nat)
    (index tag : Int) (ha : c.associativity = 1) (hi : c.get_index_bits address = some index)
    (ht : c.get_tag_bits address = some tag) (hb : c.RangeInBounds index)
    (hinv : rd c.valid index = some 0) :
    ∃ c1, c.instruction type address = some (c1, false, false) ∧ SameShape c c1 ∧
      Live c1.valid c1.tags tag index := by
  obtain ⟨c1, hit, dwb, k, hcore, hs⟩ :=
    instructionCore_spec c type address index tag hi ht hb (by omega)
  have hk : k = index := by
    have := hs.range
    omega
  subst hk
  rcases hs.cases with ⟨-, -, ⟨⟨v, hv, hne⟩, -⟩, -⟩ | ⟨hh, hnone, hdef, w1, w2, hbr⟩
  · rw [hinv] at hv
    simp only [Option.some.injEq] at hv
    exact absurd hv.symm hne
  · subst hh
    rcases hbr with ⟨-, -, w3, hd⟩ | ⟨hall, -⟩
    · subst hd
      exact ⟨c1, instruction_of_core _ _ _ _ _ _ _ hcore, accessSpec_sameShape _ _ _ _ _ _ _ _ hs,
        ⟨1, rd_wr_same _ _ _ _ w3, by decide⟩, rd_wr_same _ _ _ _ w2⟩
    · exact absurd hinv (hall k (le_refl _) (by omega))

/-- In a direct-mapped state, an access whose slot is live with the tag of the address hits
without writeback. -/
theorem direct_mapped_hit_on_live (c : CacheSimulator) (type : Int) (address : Nat)
    (index tag : Int) (ha : c.associativity = 1) (hi : c.get_index_bits address = some index)
    (ht : c.get_tag_bits address = some tag) (hb : c.RangeInBounds index)
    (hl : Live c.valid c.tags tag index) :
    ∃ c1, c.instruction type address = some (c1, true, false) ∧ SameShape c c1 := by
  obtain ⟨c1, hit, dwb, k, hcore, hs⟩ :=
    instructionCore_spec c type address index tag hi ht hb (by omega)
  rcases hs.cases with ⟨hh, hd, -⟩ | ⟨-, hnone, -⟩
  · subst hh
    subst hd
    exact ⟨c1, instruction_of_core _ _ _ _ _ _ _ hcore, accessSpec_sameShape _ _ _ _ _ _ _ _ hs⟩
  · exact absurd hl (hnone index (le_refl _) (by omega))

/-- C8 as stated fails for large instruction counts: on the direct-mapped example the trace
`[(load, 0x0, 2147483647), (load, 0x0, 1)]` overflows `stat_cycles` at the first miss penalty - no
defined result, and `-2147483618` on a wrapping machine - where the claim says
`stat_cycles = 2147483647 + 30 + 1`, the value on exact integers. -/
theorem direct_mapped_load_twice_overflows :
    CacheSimulator.construct 32 1 32 1 30 2 = some freshDirectMapped ∧
    driverLoopInt freshDirectMapped [⟨0, 0x0, 2147483647⟩, ⟨0, 0x0, 1⟩] = none ∧
    (driverLoop freshDirectMapped [⟨0, 0x0, 2147483647⟩, ⟨0, 0x0, 1⟩]).map
        (fun c => c.stat_cycles) = some 2147483678 ∧
    ¬ ((2147483647 : Int) + 30 + 1 ≤ 2147483647) ∧
    wrapInt32 (2147483647 + 30 + 1) = -2147483618 := by
  decide

/-- C8, amended: from a freshly constructed direct-mapped simulator, for instruction counts `n1`,
`n2` such that `n1`, `n1 + miss_penalty`, `n1 + miss_penalty + n2` and `n1 + n2` lie in the `int`
range, the trace `[(load, a, n1), (load, a, n2)]` run on the `int` counters gives a miss then a
hit, no dirty writeback, and ends with `stat_load_misses = 1`, `stat_load_hits = 1`, no store
hit, store miss or dirty eviction, and `stat_cycles = n1 + miss_penalty + n2`. -/
theorem direct_mapped_load_twice (g bs cs mp dwp : Int) (c0 : CacheSimulator)
    (hc : CacheSimulator.construct g 1 bs cs mp dwp = some c0) (address : Nat) (n1 n2 : Int)
    (h1 : InInt32 n1) (h2 : InInt32 (n1 + mp)) (h3 : InInt32 (n1 + mp + n2))
    (h4 : InInt32 (n1 + n2)) :
    driverOutcomesInt c0 [⟨0, address, n1⟩, ⟨0, address, n2⟩] =
        some [(false, false), (true, false)] ∧
    ∃ c, driverLoopInt c0 [⟨0, address, n1⟩, ⟨0, address, n2⟩] = some c ∧
      c.stat_load_misses = 1 ∧ c.stat_load_hits = 1 ∧ c.stat_store_hits = 0 ∧
      c.stat_store_misses = 0 ∧ c.stat_dirty_evictions = 0 ∧
      c.stat_cycles = n1 + mp + n2 := by
  have hw := construct_wellFormed g 1 bs cs mp dwp c0 hc
  obtain ⟨-, ea, -, -, emp, -, -, -, -, -, -, -, ev, -, -, hz⟩ :=
    construct_fields g 1 bs cs mp dwp c0 hc
  obtain ⟨z1, z2, z3, z4, z5, z6, z7, z8⟩ := hz
  obtain ⟨index, tag, hi, ht, hb⟩ := direct_mapped_in_bounds c0 hw ea (address % 4294967296)
  -- first load: the slot is invalid
  obtain ⟨v, hv⟩ := rd_eq_some_of_bounds c0.valid index hb.1 (by have := hb.2.1; omega)
  have hv0 : v = 0 := rd_replicate_zero _ _ _ (ev ▸ hv)
  subst hv0
  obtain ⟨c1, hins1, hsh1, hl1⟩ :=
    direct_mapped_miss_on_invalid c0 0 (address % 4294967296) index tag ea hi ht hb hv
  obtain ⟨f1, f2, f3, f4, f5, f6, f7, f8, f9, f10⟩ :=
    frame_stats c0 c1 (instruction_frame _ _ _ _ _ _ hins1)
  -- statistics after the first record: no overflow
  have a1 : c1.stat_cycles = 0 := f4.trans z2
  have a2 : c1.stat_instructions = 0 := f3.trans z1
  have a3 : c1.stat_memory_accesses = 0 := f5.trans z3
  have a4 : c1.stat_load_misses = 0 := f7.trans z5
  have a5 : c1.miss_penalty = mp := f1.trans emp
  unfold InInt32 at h1 h2 h3 h4
  have hno1 : c1.NoOverflow 0 n1 false false := by
    unfold CacheSimulator.NoOverflow InInt32
    refine ⟨by omega, by omega, by omega, ?_, ?_, ?_, ?_, ?_, ?_⟩ <;> intros <;>
      first | omega | contradiction
  set c1s := c1.update_statistics 0 n1 false false with hc1s
  have hu1 : c1.update_statistics_int 0 n1 false false = some c1s :=
    (update_statistics_int_eq_some_iff c1 0 n1 false false c1s).mpr ⟨hno1, rfl⟩
  have hsh1s : SameShape c0 c1s :=
    sameShape_trans _ _ _ hsh1 (update_statistics_sameShape _ _ _ _ _)
  obtain ⟨u1, u2, u3, u4, u5, u6⟩ := update_statistics_vectors c1 0 n1 false false
  obtain ⟨p1, p2, p3, p4⟩ := update_statistics_hit_miss c1 0 n1 false false
  obtain ⟨p5, p6⟩ := update_statistics_cycles c1 0 n1 false false
  have p7 := update_statistics_dirty_evictions c1 0 n1 false false
  have p8 := (update_statistics_counts c1 0 n1 false false).1
  -- second load: the slot is live
  obtain ⟨d1, d2⟩ := sameShape_decompose c0 c1s (address % 4294967296) hsh1s
  have hl1s : Live c1s.valid c1s.tags tag index := by
    rw [hc1s, u1, u2]
    exact hl1
  obtain ⟨c2, hins2, hsh2⟩ :=
    direct_mapped_hit_on_live c1s 0 (address % 4294967296) index tag (hsh1s.1.trans ea)
      (d1.trans hi) (d2.trans ht) (rangeInBounds_of_sameShape _ _ _ hsh1s hb) hl1s
  obtain ⟨k1, k2, k3, k4, k5, k6, k7, k8, k9, k10⟩ :=
    frame_stats c1s c2 (instruction_frame _ _ _ _ _ _ hins2)
  -- statistics after the second record: no overflow
  have b1 : c2.stat_cycles = n1 + mp := by
    rw [k4, hc1s, p5, a1, a5]; simp
  have b2 : c2.stat_instructions = n1 := by
    rw [k3, hc1s, p6, a2]; simp
  have b3 : c2.stat_memory_accesses = 1 := by
    rw [k5, hc1s, p8, a3]; simp
  have b4 : c2.stat_load_hits = 0 := by
    rw [k9, hc1s, p1, f9, z7]; simp
  have hno2 : c2.NoOverflow 0 n2 true false := by
    unfold CacheSimulator.NoOverflow InInt32
    refine ⟨by omega, by omega, by omega, ?_, ?_, ?_, ?_, ?_, ?_⟩ <;> intros <;>
      first | omega | contradiction
  have hu2 : c2.update_statistics_int 0 n2 true false =
      some (c2.update_statistics 0 n2 true false) :=
    (update_statistics_int_eq_some_iff c2 0 n2 true false _).mpr ⟨hno2, rfl⟩
  obtain ⟨q1, q2, q3, q4⟩ := update_statistics_hit_miss c2 0 n2 true false
  obtain ⟨q5, q6⟩ := update_statistics_cycles c2 0 n2 true false
  have q7 := update_statistics_dirty_evictions c2 0 n2 true false
  refine ⟨?_, c2.update_statistics 0 n2 true false, ?_, ?_, ?_, ?_, ?_, ?_, ?_⟩
  · simp [driverOutcomesInt, hins1, hu1, hins2, hu2]
  · simp [driverLoopInt, driverStepInt, hins1, hu1, hins2, hu2]
  · rw [q3, k7, hc1s, p3, a4]; simp
  · rw [q1, b4]; simp
  · rw [q2, k10, hc1s, p2, f10, z8]; simp
  · rw [q4, k8, hc1s, p4, f8, z6]; simp
  · rw [q7, k6, hc1s, p7, f6, z4]; simp
  · rw [q5, b1]; simp

/-- C8, amended, at the example of the specification: associativity 1, block size 32, cache size
1 KB, address `0x00000000`, `n1 = n2 = 1`, miss penalty 30. -/
theorem direct_mapped_load_twice_witness :
    CacheSimulator.construct 32 1 32 1 30 2 = some freshDirectMapped ∧
    (driverOutcomesInt freshDirectMapped [⟨0, 0, 1⟩, ⟨0, 0, 1⟩] =
        some [(false, false), (true, false)] ∧
    ∃ c, driverLoopInt freshDirectMapped [⟨0, 0, 1⟩, ⟨0, 0, 1⟩] = some c ∧
      c.stat_load_misses = 1 ∧ c.stat_load_hits = 1 ∧ c.stat_store_hits = 0 ∧
      c.stat_store_misses = 0 ∧ c.stat_dirty_evictions = 0 ∧
      c.stat_cycles = 1 + 30 + 1) :=
  ⟨by decide,
    direct_mapped_load_twice 32 32 1 30 2 freshDirectMapped (by decide) 0 1 1
      (by unfold InInt32; decide) (by unfold InInt32; decide) (by unfold InInt32; decide)
      (by unfold InInt32; decide)⟩

/-! ## The slot refilled on a miss -/

/-- C9: when an access misses and every slot of the scanned range is valid, the refilled slot is
the first slot of the range that carries the largest priority value, and `dirty_writeback` is
returned true exactly when that slot was dirty before the access; such an access returns when the
range lies inside the vectors. -/
theorem eviction_selects_first_max (c : CacheSimulator) (type : Int) (address : Nat)
    (index tag : Int) (hi : c.get_index_bits address = some index)
    (ht : c.get_tag_bits address = some tag)
    (hall : ∀ j, index ≤ j → j < index + c.associativity → c.SlotValid j) :
    (∀ c1 dwb k, c.instructionCore type address = some (c1, false, dwb, k) →
      FirstMax c.priority index c.associativity k ∧ (dwb = true ↔ c.SlotDirty k) ∧
      rd c1.tags k = some tag ∧ c.instruction type address = some (c1, false, dwb)) ∧
    (c.RangeInBounds index → 1 ≤ c.associativity →
      (∀ j, index ≤ j → j < index + c.associativity → ¬ c.SlotMatches tag j) →
      ∃ c1 dwb k, c.instructionCore type address = some (c1, false, dwb, k)) := by
  constructor
  · intro c1 dwb k h
    obtain ⟨index1, tag1, hi1, ht1, hs⟩ := instructionCore_sound c type address c1 false dwb k h
    rw [hi] at hi1
    rw [ht] at ht1
    simp only [Option.some.injEq] at hi1 ht1
    subst hi1
    subst ht1
    rcases hs.cases with ⟨hh, -⟩ | ⟨-, -, -, w1, w2, hbr⟩
    · simp at hh
    · rcases hbr with ⟨h0, -⟩ | ⟨-, -, hfm, d, hd, hdw⟩
      · obtain ⟨v, hv, hne⟩ := hall k hs.range.1 hs.range.2
        rw [h0] at hv
        simp only [Option.some.injEq] at hv
        exact absurd hv.symm hne
      · refine ⟨hfm, ?_, rd_wr_same _ _ _ _ w2, instruction_of_core _ _ _ _ _ _ _ h⟩
        rw [hdw]
        constructor
        · intro hd0
          exact ⟨d, hd, by simpa using hd0⟩
        · rintro ⟨d1, hd1, hne⟩
          rw [hd] at hd1
          simp only [Option.some.injEq] at hd1
          subst hd1
          simpa using hne
  · intro hb ha hmiss
    obtain ⟨c1, hit, dwb, k, hcore, hs⟩ := instructionCore_spec c type address index tag hi ht hb ha
    rcases hs.cases with ⟨-, -, hl, -⟩ | ⟨hh, -⟩
    · exact absurd hl (hmiss k hs.range.1 hs.range.2)
    · subst hh
      exact ⟨c1, dwb, k, hcore⟩

/-- C9 on a full range of the two-way cache (both priorities 1): the load `0x1000` refills
slot 0. -/
theorem eviction_selects_first_max_witness :
    twoWayFullSet.get_index_bits 0x1000 = some 0 ∧
    twoWayFullSet.get_tag_bits 0x1000 = some 8 ∧
    twoWayFullSet.instructionCore 0 0x1000 =
      some ({ twoWayFullSet with tags := [8, 0, 0, 0], dirty := [0, 1, 0, 0] },
        false, true, 0) ∧
    ((∀ c1 dwb k, twoWayFullSet.instructionCore 0 0x1000 = some (c1, false, dwb, k) →
      FirstMax twoWayFullSet.priority 0 twoWayFullSet.associativity k ∧
      (dwb = true ↔ twoWayFullSet.SlotDirty k) ∧
      rd c1.tags k = some 8 ∧ twoWayFullSet.instruction 0 0x1000 = some (c1, false, dwb)) ∧
    (twoWayFullSet.RangeInBounds 0 → 1 ≤ twoWayFullSet.associativity →
      (∀ j, 0 ≤ j → j < 0 + twoWayFullSet.associativity → ¬ twoWayFullSet.SlotMatches 8 j) →
      ∃ c1 dwb k, twoWayFullSet.instructionCore 0 0x1000 = some (c1, false, dwb, k))) :=
  ⟨by decide, by decide, by decide,
    eviction_selects_first_max twoWayFullSet 0 0x1000 0 8 (by decide) (by decide)
      (by
        intro j h1 h2
        have h3 : j < 2 := by simpa [twoWayFullSet, freshTwoWay] using h2
        have hj : j = 0 ∨ j = 1 := by omega
        rcases hj with rfl | rfl
        · exact ⟨1, by decide, by decide⟩
        · exact ⟨1, by decide, by decide⟩)⟩

/-- C10 as stated fails on the fresh two-way cache: the load `0x0` scans slots 0 and 1, both
invalid, and refills slot 1, not the first invalid slot 0. -/
theorem refill_not_first_invalid_two_way :
    freshTwoWay.get_index_bits 0x0 = some 0 ∧ rd freshTwoWay.valid 0 = some 0 ∧
    rd freshTwoWay.valid 1 = some 0 ∧
    freshTwoWay.instructionCore 0 0x0 =
      some ({ freshTwoWay with valid := [0, 1, 0, 0], priority := [0, 1, 0, 0] },
        false, false, 1) := by
  decide

/-- C10, amended: when an access misses and some slot of the scanned range is invalid, the slot
that is marked valid and refilled is the last (highest-numbered) invalid slot of the range, and
`dirty_writeback` is returned false; such an access returns when the range lies inside the
vectors. -/
theorem refill_takes_last_invalid (c : CacheSimulator) (type : Int) (address : Nat)
    (index tag : Int) (hi : c.get_index_bits address = some index)
    (ht : c.get_tag_bits address = some tag)
    (hex : ∃ j, index ≤ j ∧ j < index + c.associativity ∧ rd c.valid j = some 0) :
    (∀ c1 dwb k, c.instructionCore type address = some (c1, false, dwb, k) →
      (index ≤ k ∧ k < index + c.associativity) ∧ rd c.valid k = some 0 ∧
      (∀ j, k < j → j < index + c.associativity → c.SlotValid j) ∧
      rd c1.valid k = some 1 ∧ rd c1.tags k = some tag ∧ dwb = false ∧
      c.instruction type address = some (c1, false, false)) ∧
    (c.RangeInBounds index → 1 ≤ c.associativity →
      (∀ j, index ≤ j → j < index + c.associativity → ¬ c.SlotMatches tag j) →
      ∃ c1 dwb k, c.instructionCore type address = some (c1, false, dwb, k)) := by
  constructor
  · intro c1 dwb k h
    obtain ⟨index1, tag1, hi1, ht1, hs⟩ := instructionCore_sound c type address c1 false dwb k h
    rw [hi] at hi1
    rw [ht] at ht1
    simp only [Option.some.injEq] at hi1 ht1
    subst hi1
    subst ht1
    rcases hs.cases with ⟨hh, -⟩ | ⟨-, -, hdef, w1, w2, hbr⟩
    · simp at hh
    · rcases hbr with ⟨h0, hlast, w3, hd⟩ | ⟨hallv, -⟩
      · subst hd
        refine ⟨hs.range, h0, ?_, rd_wr_same _ _ _ _ w3, rd_wr_same _ _ _ _ w2, rfl,
          instruction_of_core _ _ _ _ _ _ _ h⟩
        intro j hj1 hj2
        obtain ⟨v, hv⟩ := hdef j (by have := hs.range.1; omega) hj2
        refine ⟨v, hv, ?_⟩
        intro hv0
        exact hlast j hj1 hj2 (by rw [hv, hv0])
      · obtain ⟨j, hj1, hj2, hj3⟩ := hex
        exact absurd hj3 (hallv j hj1 hj2)
  · intro hb ha hmiss
    obtain ⟨c1, hit, dwb, k, hcore, hs⟩ := instructionCore_spec c type address index tag hi ht hb ha
    rcases hs.cases with ⟨-, -, hl, -⟩ | ⟨hh, -⟩
    · exact absurd hl (hmiss k hs.range.1 hs.range.2)
    · subst hh
      exact ⟨c1, dwb, k, hcore⟩

/-- C10, amended, on the fresh two-way cache: the load `0x0` refills slot 1. -/
theorem refill_takes_last_invalid_witness :
    freshTwoWay.get_index_bits 0x0 = some 0 ∧ freshTwoWay.get_tag_bits 0x0 = some 0 ∧
    ((∀ c1 dwb k, freshTwoWay.instructionCore 0 0x0 = some (c1, false, dwb, k) →
      (0 ≤ k ∧ k < 0 + freshTwoWay.associativity) ∧ rd freshTwoWay.valid k = some 0 ∧
      (∀ j, k < j → j < 0 + freshTwoWay.associativity → freshTwoWay.SlotValid j) ∧
      rd c1.valid k = some 1 ∧ rd c1.tags k = some 0 ∧ dwb = false ∧
      freshTwoWay.instruction 0 0x0 = some (c1, false, false)) ∧
    (freshTwoWay.RangeInBounds 0 → 1 ≤ freshTwoWay.associativity →
      (∀ j, 0 ≤ j → j < 0 + freshTwoWay.associativity → ¬ freshTwoWay.SlotMatches 0 j) →
      ∃ c1 dwb k, freshTwoWay.instructionCore 0 0x0 = some (c1, false, dwb, k))) :=
  ⟨by decide, by decide,
    refill_takes_last_invalid freshTwoWay 0 0x0 0 0 (by decide) (by decide)
      ⟨1, by decide, by decide, by decide⟩⟩

/-! ## Repeated access in a direct-mapped cache -/

/-- An access leaves the `valid`, `tags` and `dirty` entries of every slot other than the accessed
slot `k` unchanged. -/
theorem accessSpec_other_slot (c : CacheSimulator) (type tag index : Int) (c1 : CacheSimulator)
    (hit dwb : Bool) (k j : Int) (hs : AccessSpec c type tag index c1 hit dwb k) (hj : j ≠ k) :
    rd c1.valid j = rd c.valid j ∧ rd c1.tags j = rd c.tags j ∧ rd c1.dirty j = rd c.dirty j := by
  rcases hs.cases with ⟨-, -, -, -, e1, e2, d, -, w⟩ | ⟨-, -, -, w1, w2, hbr⟩
  · exact ⟨by rw [e1], by rw [e2], rd_wr_other _ _ _ _ _ w hj⟩
  · refine ⟨?_, rd_wr_other _ _ _ _ _ w2 hj, rd_wr_other _ _ _ _ _ w1 hj⟩
    rcases hbr with ⟨-, -, w3, -⟩ | ⟨-, e, -, -⟩
    · exact rd_wr_other _ _ _ _ _ w3 hj
    · rw [e]

/-- After an access, the accessed slot is live with the tag of the address. -/
theorem accessSpec_live (c : CacheSimulator) (type tag index : Int) (c1 : CacheSimulator)
    (hit dwb : Bool) (k : Int) (hs : AccessSpec c type tag index c1 hit dwb k) :
    Live c1.valid c1.tags tag k := by
  rcases hs.cases with ⟨-, -, hl, -, e1, e2, -⟩ | ⟨-, -, hdef, w1, w2, hbr⟩
  · rw [e1, e2]
    exact hl
  · refine ⟨?_, rd_wr_same _ _ _ _ w2⟩
    rcases hbr with ⟨-, -, w3, -⟩ | ⟨hall, e, -, -⟩
    · exact ⟨1, rd_wr_same _ _ _ _ w3, by decide⟩
    · obtain ⟨v, hv⟩ := hdef k hs.range.1 hs.range.2
      refine ⟨v, by rw [e]; exact hv, ?_⟩
      intro hv0
      exact hall k hs.range.1 hs.range.2 (by rw [hv, hv0])

theorem direct_mapped_run_keeps_live (c0 : CacheSimulator) (hw : WellFormed c0)
    (ha : c0.associativity = 1) (address : Nat) (index tag : Int)
    (hi : c0.get_index_bits address = some index) :
    ∀ (accs : List (Int × Nat)) (c : CacheSimulator), SameShape c0 c →
      Live c.valid c.tags tag index →
      (∀ a ∈ accs, c0.get_index_bits a.2 ≠ c0.get_index_bits address) →
      ∃ c2 outs, runAccesses c accs = some (c2, outs) ∧ SameShape c0 c2 ∧
        Live c2.valid c2.tags tag index := by
  intro accs
  induction accs with
  | nil =>
    intro c hsh hl _
    exact ⟨c, [], rfl, hsh, hl⟩
  | cons a rest ih =>
    intro c hsh hl hdiff
    have hwc := wellFormed_of_sameShape c0 c hw hsh
    have hac : c.associativity = 1 := hsh.1.trans ha
    obtain ⟨i1, t1, hi1, ht1, hb1⟩ := direct_mapped_in_bounds c hwc hac a.2
    obtain ⟨c1, hit, dwb, k, hcore, hs⟩ :=
      instructionCore_spec c a.1 a.2 i1 t1 hi1 ht1 hb1 (by omega)
    have hk : k = i1 := by
      have := hs.range
      omega
    have hne : index ≠ k := by
      intro e
      apply hdiff a (List.mem_cons_self _ _)
      rw [hi, ← (sameShape_decompose c0 c a.2 hsh).1, hi1, e, hk]
    obtain ⟨o1, o2, -⟩ := accessSpec_other_slot c a.1 t1 i1 c1 hit dwb k index hs hne
    have hl1 : Live c1.valid c1.tags tag index := by
      unfold Live
      rw [o1, o2]
      exact hl
    obtain ⟨c2, outs, hr, hsh2, hl2⟩ := ih c1
      (sameShape_trans _ _ _ hsh (accessSpec_sameShape _ _ _ _ _ _ _ _ hs)) hl1
      (fun b hb => hdiff b (List.mem_cons_of_mem _ hb))
    exact ⟨c2, (hit, dwb, k) :: outs, by simp [runAccesses, hcore, hr], hsh2, hl2⟩

/-- In a direct-mapped well-formed state: an access, then any accesses of other set indices, then
the same access again - the last access hits and reports no dirty writeback. -/
theorem direct_mapped_repeat_hits (c : CacheSimulator) (hw : WellFormed c)
    (ha : c.associativity = 1) (type : Int) (address : Nat) (accs : List (Int × Nat))
    (hdiff : ∀ a ∈ accs, c.get_index_bits a.2 ≠ c.get_index_bits address) :
    ∃ c1 hit1 dwb1 c2 outs c3, c.instruction type address = some (c1, hit1, dwb1) ∧
      runAccesses c1 accs = some (c2, outs) ∧
      c2.instruction type address = some (c3, true, false) := by
  obtain ⟨index, tag, hi, ht, hb⟩ := direct_mapped_in_bounds c hw ha address
  obtain ⟨c1, hit1, dwb1, k, hcore, hs⟩ :=
    instructionCore_spec c type address index tag hi ht hb (by omega)
  have hk : k = index := by
    have := hs.range
    omega
  subst hk
  have hsh1 := accessSpec_sameShape _ _ _ _ _ _ _ _ hs
  obtain ⟨c2, outs, hr, hsh2, hl2⟩ := direct_mapped_run_keeps_live c hw ha address k tag hi
    accs c1 hsh1 (accessSpec_live _ _ _ _ _ _ _ _ hs) hdiff
  obtain ⟨d1, d2⟩ := sameShape_decompose c c2 address hsh2
  obtain ⟨c3, h3, -⟩ := direct_mapped_hit_on_live c2 type address k tag (hsh2.1.trans ha)
    (d1.trans hi) (d2.trans ht) (rangeInBounds_of_sameShape _ _ _ hsh2 hb) hl2
  exact ⟨c1, hit1, dwb1, c2, outs, c3, instruction_of_core _ _ _ _ _ _ _ hcore, hr, h3⟩

/-! ## Frame of a hit and of a miss -/

theorem nat_lor_eq_zero_right (m n : Nat) (h : m ||| n = 0) : n = 0 := by
  apply Nat.eq_of_testBit_eq
  intro i
  have := Nat.testBit_or m n i
  rw [h] at this
  simp only [Nat.zero_testBit] at this ⊢
  cases hn : n.testBit i with
  | false => rfl
  | true => simp [hn] at this

theorem int_lor_eq_zero_iff (d t : Int) : Int.lor d t = 0 ↔ d = 0 ∧ t = 0 := by
  constructor
  · intro h
    cases d with
    | ofNat m =>
      cases t with
      | ofNat n =>
        simp only [Int.lor] at h
        have h1 : m ||| n = 0 := by exact_mod_cast h
        rw [nat_lor_eq_zero_left m n h1, nat_lor_eq_zero_right m n h1]
        exact ⟨rfl, rfl⟩
      | negSucc n =>
        simp only [Int.lor] at h
        exact absurd h (by simp)
    | negSucc m =>
      cases t with
      | ofNat n =>
        simp only [Int.lor] at h
        exact absurd h (by simp)
      | negSucc n =>
        simp only [Int.lor] at h
        exact absurd h (by simp)
  · rintro ⟨rfl, rfl⟩
    rfl

/-- C11: an access that hits slot `h` returns `dirty_writeback = false`; afterwards slot `h` is
dirty iff it was dirty before or the access is a store; the `tags` and `valid` vectors and the
`dirty` entry of every other slot are unchanged; an access whose in-bounds range holds a live
matching slot does return a hit. -/
theorem hit_frame (c : CacheSimulator) (type : Int) (address : Nat) (index tag : Int)
    (hi : c.get_index_bits address = some index) (ht : c.get_tag_bits address = some tag) :
    (∀ c1 dwb h, c.instructionCore type address = some (c1, true, dwb, h) →
      dwb = false ∧ c.SlotMatches tag h ∧ (c1.SlotDirty h ↔ (c.SlotDirty h ∨ type ≠ 0)) ∧
      c1.tags = c.tags ∧ c1.valid = c.valid ∧ (∀ j, j ≠ h → rd c1.dirty j = rd c.dirty j) ∧
      c.instruction type address = some (c1, true, false)) ∧
    (c.RangeInBounds index → 1 ≤ c.associativity →
      (∃ j, index ≤ j ∧ j < index + c.associativity ∧ c.SlotMatches tag j) →
      ∃ c1 dwb h, c.instructionCore type address = some (c1, true, dwb, h)) := by
  constructor
  · intro c1 dwb h hcore
    obtain ⟨index1, tag1, hi1, ht1, hs⟩ := instructionCore_sound c type address c1 true dwb h hcore
    rw [hi] at hi1
    rw [ht] at ht1
    simp only [Option.some.injEq] at hi1 ht1
    subst hi1
    subst ht1
    rcases hs.cases with ⟨-, hd, hl, -, e1, e2, d, g1, g2⟩ | ⟨hh, -⟩
    · subst hd
      refine ⟨rfl, hl, ?_, e2, e1, fun j hj => rd_wr_other _ _ _ _ _ g2 hj,
        instruction_of_core _ _ _ _ _ _ _ hcore⟩
      have hnew : rd c1.dirty h = some (Int.lor d type) := rd_wr_same _ _ _ _ g2
      constructor
      · rintro ⟨d1, hd1, hne⟩
        rw [hnew] at hd1
        simp only [Option.some.injEq] at hd1
        subst hd1
        by_cases hd0 : d = 0
        · right
          intro ht0
          exact hne ((int_lor_eq_zero_iff d type).mpr ⟨hd0, ht0⟩)
        · left
          exact ⟨d, g1, hd0⟩
      · intro hor
        refine ⟨_, hnew, ?_⟩
        intro hz
        obtain ⟨z1, z2⟩ := (int_lor_eq_zero_iff d type).mp hz
        rcases hor with ⟨d1, hd1, hne⟩ | hty
        · rw [g1] at hd1
          simp only [Option.some.injEq] at hd1
          exact hne (hd1 ▸ z1)
        · exact hty z2
    · simp at hh
  · intro hb ha hex
    obtain ⟨c1, hit, dwb, k, hcore, hs⟩ := instructionCore_spec c type address index tag hi ht hb ha
    rcases hs.cases with ⟨hh, -⟩ | ⟨-, hnone, -⟩
    · subst hh
      exact ⟨c1, dwb, k, hcore⟩
    · obtain ⟨j, hj1, hj2, hj3⟩ := hex
      exact absurd hj3 (hnone j hj1 hj2)

/-- C11 on the two-way cache after the store `0x100`: the load `0x100` hits slot 2, which stays
dirty. -/
theorem hit_frame_witness :
    twoWayAfterStore.get_index_bits 0x100 = some 1 ∧
    twoWayAfterStore.get_tag_bits 0x100 = some 0 ∧
    twoWayAfterStore.instructionCore 0 0x100 =
      some ({ twoWayAfterStore with priority := [0, 1, 1, 0] }, true, false, 2) ∧
    ((∀ c1 dwb h, twoWayAfterStore.instructionCore 0 0x100 = some (c1, true, dwb, h) →
      dwb = false ∧ twoWayAfterStore.SlotMatches 0 h ∧
      (c1.SlotDirty h ↔ (twoWayAfterStore.SlotDirty h ∨ (0 : Int) ≠ 0)) ∧
      c1.tags = twoWayAfterStore.tags ∧ c1.valid = twoWayAfterStore.valid ∧
      (∀ j, j ≠ h → rd c1.dirty j = rd twoWayAfterStore.dirty j) ∧
      twoWayAfterStore.instruction 0 0x100 = some (c1, true, false)) ∧
    (twoWayAfterStore.RangeInBounds 1 → 1 ≤ twoWayAfterStore.associativity →
      (∃ j, 1 ≤ j ∧ j < 1 + twoWayAfterStore.associativity ∧ twoWayAfterStore.SlotMatches 0 j) →
      ∃ c1 dwb h, twoWayAfterStore.instructionCore 0 0x100 = some (c1, true, dwb, h))) :=
  ⟨by decide, by decide, by decide,
    hit_frame twoWayAfterStore 0 0x100 1 0 (by decide) (by decide)⟩

/-- C12: an access that misses refills one slot `t` of the scanned range; afterwards slot `t` is
valid, stores the tag `get_tag_bits(address)`, and its dirty entry is the access kind (set for a
store, clear for a load); the `valid`, `tags` and `dirty` entries of every other slot are
unchanged; an access whose in-bounds range holds no live matching slot does return a miss. -/
theorem miss_frame (c : CacheSimulator) (type : Int) (address : Nat) (index tag : Int)
    (hi : c.get_index_bits address = some index) (ht : c.get_tag_bits address = some tag) :
    (∀ c1 dwb t, c.instructionCore type address = some (c1, false, dwb, t) →
      (index ≤ t ∧ t < index + c.associativity) ∧ c1.SlotValid t ∧ rd c1.tags t = some tag ∧
      rd c1.dirty t = some type ∧ (c1.SlotDirty t ↔ type ≠ 0) ∧
      (∀ j, j ≠ t → rd c1.valid j = rd c.valid j ∧ rd c1.tags j = rd c.tags j ∧
        rd c1.dirty j = rd c.dirty j) ∧
      c.instruction type address = some (c1, false, dwb)) ∧
    (c.RangeInBounds index → 1 ≤ c.associativity →
      (∀ j, index ≤ j → j < index + c.associativity → ¬ c.SlotMatches tag j) →
      ∃ c1 dwb t, c.instructionCore type address = some (c1, false, dwb, t)) := by
  constructor
  · intro c1 dwb t hcore
    obtain ⟨index1, tag1, hi1, ht1, hs⟩ := instructionCore_sound c type address c1 false dwb t hcore
    rw [hi] at hi1
    rw [ht] at ht1
    simp only [Option.some.injEq] at hi1 ht1
    subst hi1
    subst ht1
    have hlive := accessSpec_live _ _ _ _ _ _ _ _ hs
    have hd : rd c1.dirty t = some type := by
      rcases hs.cases with ⟨hh, -⟩ | ⟨-, -, -, w1, -⟩
      · simp at hh
      · exact rd_wr_same _ _ _ _ w1
    refine ⟨hs.range, hlive.1, hlive.2, hd, ?_,
      fun j hj => accessSpec_other_slot _ _ _ _ _ _ _ _ j hs hj,
      instruction_of_core _ _ _ _ _ _ _ hcore⟩
    constructor
    · rintro ⟨d1, hd1, hne⟩
      rw [hd] at hd1
      simp only [Option.some.injEq] at hd1
      exact hd1 ▸ hne
    · intro hne
      exact ⟨type, hd, hne⟩
  · intro hb ha hmiss
    obtain ⟨c1, hit, dwb, k, hcore, hs⟩ := instructionCore_spec c type address index tag hi ht hb ha
    rcases hs.cases with ⟨-, -, hl, -⟩ | ⟨hh, -⟩
    · exact absurd hl (hmiss k hs.range.1 hs.range.2)
    · subst hh
      exact ⟨c1, dwb, k, hcore⟩

/-- C12 on the two-way cache after the store `0x100` and the load `0x200`: the load `0x600`
misses and refills slot 2, which becomes clean. -/
theorem miss_frame_witness :
    twoWayAfterStoreLoad.get_index_bits 0x600 = some 2 ∧
    twoWayAfterStoreLoad.get_tag_bits 0x600 = some 3 ∧
    twoWayAfterStoreLoad.instructionCore 0 0x600 = some (twoWayAfterEviction, false, true, 2) ∧
    ((∀ c1 dwb t, twoWayAfterStoreLoad.instructionCore 0 0x600 = some (c1, false, dwb, t) →
      (2 ≤ t ∧ t < 2 + twoWayAfterStoreLoad.associativity) ∧ c1.SlotValid t ∧
      rd c1.tags t = some 3 ∧ rd c1.dirty t = some 0 ∧ (c1.SlotDirty t ↔ (0 : Int) ≠ 0) ∧
      (∀ j, j ≠ t → rd c1.valid j = rd twoWayAfterStoreLoad.valid j ∧
        rd c1.tags j = rd twoWayAfterStoreLoad.tags j ∧
        rd c1.dirty j = rd twoWayAfterStoreLoad.dirty j) ∧
      twoWayAfterStoreLoad.instruction 0 0x600 = some (c1, false, dwb)) ∧
    (twoWayAfterStoreLoad.RangeInBounds 2 → 1 ≤ twoWayAfterStoreLoad.associativity →
      (∀ j, 2 ≤ j → j < 2 + twoWayAfterStoreLoad.associativity →
        ¬ twoWayAfterStoreLoad.SlotMatches 3 j) →
      ∃ c1 dwb t, twoWayAfterStoreLoad.instructionCore 0 0x600 = some (c1, false, dwb, t))) :=
  ⟨by decide, by decide, by decide,
    miss_frame twoWayAfterStoreLoad 0 0x600 2 3 (by decide) (by decide)⟩

/-! ## Valid slots stay valid -/

theorem accessSpec_valid_stays (c : CacheSimulator) (type tag index : Int)
    (c1 : CacheSimulator) (hit dwb : Bool) (k j : Int)
    (hs : AccessSpec c type tag index c1 hit dwb k) (hv : c.SlotValid j) : c1.SlotValid j := by
  by_cases hjk : j = k
  · subst hjk
    exact (accessSpec_live _ _ _ _ _ _ _ _ hs).1
  · obtain ⟨v, hv1, hv2⟩ := hv
    exact ⟨v, by rw [(accessSpec_other_slot _ _ _ _ _ _ _ _ j hs hjk).1]; exact hv1, hv2⟩

theorem runAccesses_valid_stays (j : Int) :
    ∀ (accs : List (Int × Nat)) (c c2 : CacheSimulator) (outs : List (Bool × Bool × Int)),
      runAccesses c accs = some (c2, outs) → c.SlotValid j → c2.SlotValid j := by
  intro accs
  induction accs with
  | nil =>
    intro c c2 outs h hv
    simp only [runAccesses, Option.some.injEq, Prod.mk.injEq] at h
    obtain ⟨rfl, -⟩ := h
    exact hv
  | cons a rest ih =>
    intro c c2 outs h hv
    unfold runAccesses at h
    cases hc : c.instructionCore a.1 a.2 with
    | none => simp [hc] at h
    | some r =>
      obtain ⟨c1, hit, dwb, k1⟩ := r
      simp only [hc] at h
      cases hr : runAccesses c1 rest with
      | none => simp [hr] at h
      | some r2 =>
        obtain ⟨c3, outs1⟩ := r2
        simp only [hr, Option.some.injEq, Prod.mk.injEq] at h
        obtain ⟨rfl, rfl⟩ := h
        obtain ⟨index, tag, -, -, hspec⟩ := instructionCore_sound c a.1 a.2 c1 hit dwb k1 hc
        exact ih c1 c3 outs1 hr (accessSpec_valid_stays _ _ _ _ _ _ _ _ j hspec hv)

/-- C16: a slot that is valid before an access on which `instruction` returns is valid after it,
and so it stays valid along every sequence of such accesses: no slot returns to the invalid
state. -/
theorem valid_stays_valid (c : CacheSimulator) (j : Int) (hv : c.SlotValid j) :
    (∀ type address c1 hit dwb, c.instruction type address = some (c1, hit, dwb) →
      c1.SlotValid j) ∧
    (∀ accs c2 outs, runAccesses c accs = some (c2, outs) → c2.SlotValid j) := by
  constructor
  · intro type address c1 hit dwb h
    obtain ⟨k, hk⟩ := core_of_instruction c type address c1 hit dwb h
    obtain ⟨index, tag, -, -, hs⟩ := instructionCore_sound c type address c1 hit dwb k hk
    exact accessSpec_valid_stays _ _ _ _ _ _ _ _ j hs hv
  · intro accs c2 outs h
    exact runAccesses_valid_stays j accs c c2 outs h hv

/-- C16 on the two-way cache after the store `0x100`: slot 2 is valid and stays valid. -/
theorem valid_stays_valid_witness :
    twoWayAfterStore.SlotValid 2 ∧
    runAccesses twoWayAfterStore [(0, 0x200), (0, 0x600)] =
      some (twoWayAfterEviction, [(false, false, 3), (false, true, 2)]) ∧
    ((∀ type address c1 hit dwb, twoWayAfterStore.instruction type address = some (c1, hit, dwb) →
      c1.SlotValid 2) ∧
    (∀ accs c2 outs, runAccesses twoWayAfterStore accs = some (c2, outs) → c2.SlotValid 2)) :=
  ⟨⟨1, by decide, by decide⟩, by decide,
    valid_stays_valid twoWayAfterStore 2 ⟨1, by decide, by decide⟩⟩

/-! ## The priority loop and the choice of the victim, evaluated -/

/-- C13 evaluated on the four-way single-set cache (`-a 4 -l 256 -s 1`): after the load `0x000`
refills slot 3, the same load hits slot 3; slots 1 and 2 have priority 0, below the priority 1 of
the accessed slot, yet their priority is still 0 afterwards - only `priority[index]` (slot 0) is
incremented. -/
theorem priority_loop_skips_slots_four_way :
    CacheSimulator.construct 256 4 256 1 30 2 = some freshFourWay ∧
    freshFourWay.get_index_bits 0x000 = some 0 ∧
    freshFourWay.instructionCore 0 0x000 =
      some ({ freshFourWay with valid := [0, 0, 0, 1], priority := [0, 0, 0, 1] },
        false, false, 3) ∧
    ({ freshFourWay with valid := [0, 0, 0, 1],
                         priority := [0, 0, 0, 1] } : CacheSimulator).instructionCore 0 0x000 =
      some ({ freshFourWay with valid := [0, 0, 0, 1], priority := [1, 0, 0, 1] },
        true, false, 3) ∧
    rd [1, 0, 0, 1] 1 ≠ some (0 + 1) ∧ rd [1, 0, 0, 1] 2 ≠ some (0 + 1) := by
  decide

/-- C14 evaluated on the two-way cache: the stores `0x000`, `0x800`, `0x1000` all have set
index 0 and pairwise distinct tags; the second refills slot 0, and the third, a miss on the full
range, evicts slot 0 - the slot accessed by the immediately preceding access. -/
theorem eviction_takes_most_recent_two_way :
    freshTwoWay.get_index_bits 0x000 = some 0 ∧ freshTwoWay.get_index_bits 0x800 = some 0 ∧
    freshTwoWay.get_index_bits 0x1000 = some 0 ∧
    freshTwoWay.get_tag_bits 0x000 = some 0 ∧ freshTwoWay.get_tag_bits 0x800 = some 4 ∧
    freshTwoWay.get_tag_bits 0x1000 = some 8 ∧
    runAccesses freshTwoWay [(1, 0x000), (1, 0x800)] =
      some (twoWayFullSet, [(false, false, 1), (false, false, 0)]) ∧
    twoWayFullSet.instructionCore 1 0x1000 =
      some ({ twoWayFullSet with tags := [8, 0, 0, 0] }, false, true, 0) := by
  decide

/-- C15 evaluated on the two-way cache: after the loads `0x100` and `0x000` the range `[1, 3)`
scanned for the address `0x100` holds two valid slots with that address's tag 0. -/
theorem duplicate_live_tag_two_way :
    runAccesses freshTwoWay [(0, 0x100), (0, 0x000)] =
      some (twoWayDuplicateTag, [(false, false, 2), (false, false, 1)]) ∧
    twoWayDuplicateTag.get_index_bits 0x100 = some 1 ∧
    twoWayDuplicateTag.get_tag_bits 0x100 = some 0 ∧
    twoWayDuplicateTag.SlotMatches 0 1 ∧ twoWayDuplicateTag.SlotMatches 0 2 :=
  ⟨by decide, by decide, by decide, ⟨⟨1, by decide, by decide⟩, by decide⟩,
    ⟨⟨1, by decide, by decide⟩, by decide⟩⟩

/-- C17 evaluated: with the file-level `blocksize_bytes` at its default 32, the constructor call
`CacheSimulator(1, 64, 1, 30, 2)` derives `num_blocks = 32`, `num_sets = 32`,
`num_offset_bits = 5` and vectors of length 32 - the values for block size 32, not
`(1024 * 1) / 64 = 16` and `log2(64) = 6`; with the file-level variable at 64 the same call
derives 16, 16, 6 and length 16. -/
theorem constructor_reads_file_level_blocksize :
    CacheSimulator.construct 32 1 64 1 30 2 =
      some { freshDirectMapped with blocksize_byte := 64 } ∧
    freshDirectMapped.num_blocks = 32 ∧ freshDirectMapped.num_sets = 32 ∧
    freshDirectMapped.num_offset_bits = 5 ∧ freshDirectMapped.valid.length = 32 ∧
    Int.tdiv (1024 * 1) 64 = 16 ∧ ilog2 64 = 6 ∧
    CacheSimulator.construct 64 1 64 1 30 2 =
      some { freshDirectMapped with
        blocksize_byte := 64, num_blocks := 16, num_sets := 16, num_offset_bits := 6,
        num_index_bits := 4, tag_mask := 10,
        tags := List.replicate 16 0, valid := List.replicate 16 0,
        priority := List.replicate 16 0, dirty := List.replicate 16 0 } := by
  decide

/-- C18 evaluated on the fresh two-way cache (4 slots, all four vectors of length 4): the address
`0x300` has index 3, slot 3 is invalid, so the scan goes on to read `valid[4]`, outside the
vector; the access has no defined result. -/
theorem scan_reads_past_end_two_way :
    freshTwoWay.valid.length = 4 ∧ freshTwoWay.get_index_bits 0x300 = some 3 ∧
    rd freshTwoWay.valid 3 = some 0 ∧ rd freshTwoWay.valid (3 + 1) = none ∧
    scanLoop freshTwoWay.valid freshTwoWay.tags freshTwoWay.dirty 0 1
      freshTwoWay.associativity.toNat 3 (-1) = none ∧
    freshTwoWay.instruction 0 0x300 = none := by
  decide

/-! ## Dirty evictions are paid for by stores -/

theorem nonzeroCount_wr (vec vec1 : List Int) (k d x : Int) (hr : rd vec k = some d)
    (hw : wr vec k x = some vec1) :
    (nonzeroCount vec1 : Int) + (if d ≠ 0 then 1 else 0) =
      (nonzeroCount vec : Int) + (if x ≠ 0 then 1 else 0) := by
  obtain ⟨⟨h0, h1⟩, e⟩ := (wr_eq_some_iff vec vec1 k x).mp hw
  have hlt : k.toNat < vec.length := by omega
  have hget : vec[k.toNat] = d := by
    unfold rd at hr
    rw [if_pos h0, List.getElem?_eq_getElem hlt] at hr
    simpa using hr
  have hpos : d ≠ 0 → 0 < List.countP (fun d => decide (d ≠ 0)) vec := by
    intro hd
    rw [List.countP_pos_iff]
    exact ⟨d, hget ▸ List.getElem_mem hlt, by simpa using hd⟩
  have hset : List.countP (fun d => decide (d ≠ 0)) vec1 =
      (List.countP (fun d => decide (d ≠ 0)) vec - if d ≠ 0 then 1 else 0) +
        if x ≠ 0 then 1 else 0 := by
    rw [e, List.countP_set _ _ _ _ hlt, hget]
    simp
  unfold nonzeroCount
  rw [hset]
  by_cases hd : d = 0
  · split_ifs <;> omega
  · have := hpos hd
    split_ifs <;> omega

/-- One access: the dirty slots gained, plus the dirty writeback reported, are covered by the
access being a store. -/
theorem accessSpec_dirtyCount (c : CacheSimulator) (type tag index : Int) (c1 : CacheSimulator)
    (hit dwb : Bool) (k : Int) (hs : AccessSpec c type tag index c1 hit dwb k) :
    (c1.dirtyCount : Int) + (if dwb = true then 1 else 0) ≤
      (c.dirtyCount : Int) + (if type ≠ 0 then 1 else 0) := by
  unfold CacheSimulator.dirtyCount
  rcases hs.cases with ⟨-, hd, -, -, -, -, d, g1, g2⟩ | ⟨-, -, -, w1, -, hbr⟩
  · subst hd
    have h := nonzeroCount_wr c.dirty c1.dirty k d (Int.lor d type) g1 g2
    have hl := int_lor_eq_zero_iff d type
    rw [if_neg (by decide)]
    split_ifs at h ⊢ <;> omega
  · obtain ⟨d, hd⟩ : ∃ d, rd c.dirty k = some d := by
      obtain ⟨⟨h0, h1⟩, -⟩ := (wr_eq_some_iff _ _ _ _).mp w1
      exact rd_eq_some_of_bounds _ _ h0 h1
    have h := nonzeroCount_wr c.dirty c1.dirty k d type hd w1
    have hdw : dwb = true → d ≠ 0 := by
      intro hdt
      rcases hbr with ⟨-, -, -, e⟩ | ⟨-, -, -, d1, hd1, e⟩
      · rw [e] at hdt
        exact absurd hdt (by decide)
      · rw [hd] at hd1
        simp only [Option.some.injEq] at hd1
        subst hd1
        rw [e] at hdt
        simpa using hdt
    split_ifs at h ⊢ <;> first | omega | (exfalso; tauto)

theorem update_statistics_store_total (c : CacheSimulator) (itype icount : Int)
    (hit dwb : Bool) :
    (c.update_statistics itype icount hit dwb).stat_store_hits +
        (c.update_statistics itype icount hit dwb).stat_store_misses =
      c.stat_store_hits + c.stat_store_misses + (if itype ≠ 0 then 1 else 0) := by
  obtain ⟨-, e2, -, e4⟩ := update_statistics_hit_miss c itype icount hit dwb
  rw [e2, e4]
  cases hit <;> by_cases h : itype = 0 <;> simp [h] <;> omega

/-- One iteration of the driver loop does not raise the excess of dirty evictions plus dirty
slots over stores, does not lower the eviction count, and counts the record if it is a store. -/
theorem driverStep_dirty (c c1 : CacheSimulator) (r : TraceRecord)
    (h : driverStep c r = some c1) :
    c1.stat_dirty_evictions + c1.dirtyCount - (c1.stat_store_hits + c1.stat_store_misses) ≤
        c.stat_dirty_evictions + c.dirtyCount - (c.stat_store_hits + c.stat_store_misses) ∧
      c.stat_dirty_evictions ≤ c1.stat_dirty_evictions ∧
      c1.stat_store_hits + c1.stat_store_misses =
        c.stat_store_hits + c.stat_store_misses + (if r.loadstore ≠ 0 then 1 else 0) := by
  unfold driverStep at h
  cases hi : c.instruction r.loadstore (r.address % 4294967296) with
  | none => simp [hi] at h
  | some res =>
    obtain ⟨c2, hit, dwb⟩ := res
    simp only [hi, Option.some.injEq] at h
    subst h
    obtain ⟨k, hk⟩ := core_of_instruction c _ _ c2 hit dwb hi
    obtain ⟨index, tag, -, -, hs⟩ := instructionCore_sound c _ _ c2 hit dwb k hk
    obtain ⟨-, -, -, -, -, f6, -, f8, -, f10⟩ := frame_stats c c2 hs.frame
    have hd := accessSpec_dirtyCount c r.loadstore tag index c2 hit dwb k hs
    have he := update_statistics_dirty_evictions c2 r.loadstore r.icount hit dwb
    have hst := update_statistics_store_total c2 r.loadstore r.icount hit dwb
    obtain ⟨-, -, u3, -⟩ := update_statistics_vectors c2 r.loadstore r.icount hit dwb
    have hdc : (c2.update_statistics r.loadstore r.icount hit dwb).dirtyCount = c2.dirtyCount := by
      unfold CacheSimulator.dirtyCount
      rw [u3]
    rw [hdc, he, hst, f6, f8, f10]
    have hnn : (0 : Int) ≤ (if dwb = true then 1 else 0) := by
      cases dwb <;> simp
    refine ⟨by omega, by omega, rfl⟩

theorem driverLoop_dirty :
    ∀ (trace : List TraceRecord) (c c1 : CacheSimulator), driverLoop c trace = some c1 →
      c1.stat_dirty_evictions + c1.dirtyCount - (c1.stat_store_hits + c1.stat_store_misses) ≤
        c.stat_dirty_evictions + c.dirtyCount - (c.stat_store_hits + c.stat_store_misses) ∧
      c.stat_dirty_evictions ≤ c1.stat_dirty_evictions ∧
      c1.stat_store_hits + c1.stat_store_misses =
        c.stat_store_hits + c.stat_store_misses + storeCount trace := by
  intro trace
  induction trace with
  | nil =>
    intro c c1 h
    simp only [driverLoop, Option.some.injEq] at h
    subst h
    simp [storeCount]
  | cons r rest ih =>
    intro c c1 h
    unfold driverLoop at h
    cases hs : driverStep c r with
    | none => simp [hs] at h
    | some c2 =>
      simp only [hs] at h
      obtain ⟨a1, a2, a3⟩ := driverStep_dirty c c2 r hs
      obtain ⟨b1, b2, b3⟩ := ih c2 c1 h
      have hcount : (storeCount (r :: rest) : Int) =
          (if r.loadstore ≠ 0 then 1 else 0) + storeCount rest := by
        unfold storeCount
        rw [List.countP_cons]
        by_cases hl : r.loadstore ≠ 0
        · simp [hl]
          omega
        · simp [hl]
      refine ⟨by omega, by omega, ?_⟩
      rw [b3, a3, hcount]
      ring

/-- C20: after the driver loop has replayed a trace from a freshly constructed simulator,
`stat_dirty_evictions` plus the number of slots whose dirty flag is nonzero is at most
`stat_store_hits + stat_store_misses`, which is the number of store records; so the dirty
evictions never exceed the stores, and a trace of loads only produces no dirty eviction.  The loop
returns for every trace whose accesses are in bounds. -/
theorem dirty_evictions_bounded_by_stores (g a bs cs mp dwp : Int) (c0 : CacheSimulator)
    (hc : CacheSimulator.construct g a bs cs mp dwp = some c0) (trace : List TraceRecord) :
    (∀ c, driverLoop c0 trace = some c →
      c.stat_dirty_evictions + c.dirtyCount ≤ c.stat_store_hits + c.stat_store_misses ∧
      c.stat_store_hits + c.stat_store_misses = storeCount trace ∧
      c.stat_dirty_evictions ≤ storeCount trace ∧
      ((∀ r ∈ trace, r.loadstore = 0) → c.stat_dirty_evictions = 0)) ∧
    ((∀ r ∈ trace, c0.AccessInBounds (r.address % 4294967296)) →
      ∃ c, driverLoop c0 trace = some c) := by
  obtain ⟨-, -, -, -, -, -, -, -, -, -, -, -, -, -, hd, hz⟩ :=
    construct_fields g a bs cs mp dwp c0 hc
  obtain ⟨-, -, -, z4, -, z6, -, z8⟩ := hz
  refine ⟨?_, driverLoop_total trace c0⟩
  intro c hrun
  obtain ⟨e1, e2, e3⟩ := driverLoop_dirty trace c0 c hrun
  have hd0 : c0.dirtyCount = 0 := by
    unfold CacheSimulator.dirtyCount nonzeroCount
    rw [hd]
    simp
  rw [z4, z6, z8, hd0] at e1
  rw [z4] at e2
  rw [z6, z8] at e3
  simp only [Nat.cast_zero, add_zero, zero_add, sub_self] at e1 e3
  have hcnt : (0 : Int) ≤ (c.dirtyCount : Int) := Int.natCast_nonneg _
  refine ⟨by omega, e3, by omega, ?_⟩
  intro hloads
  have hs0 : storeCount trace = 0 := by
    unfold storeCount
    rw [List.countP_eq_zero]
    intro r hr
    simp [hloads r hr]
  rw [hs0] at e3
  simp only [Nat.cast_zero] at e3
  omega

/-- C20 at the direct-mapped example: a store miss, a load that evicts the dirty line, and a load
hit. -/
theorem dirty_evictions_bounded_by_stores_witness :
    CacheSimulator.construct 32 1 32 1 30 2 = some freshDirectMapped ∧
    (driverLoop freshDirectMapped [⟨1, 0x0, 1⟩, ⟨0, 0x400, 1⟩, ⟨0, 0x400, 1⟩]).map
        (fun c => (c.stat_dirty_evictions, c.dirtyCount, c.stat_store_hits, c.stat_store_misses)) =
      some (1, 0, 0, 1) ∧
    ((∀ c, driverLoop freshDirectMapped [⟨1, 0x0, 1⟩, ⟨0, 0x400, 1⟩, ⟨0, 0x400, 1⟩] = some c →
      c.stat_dirty_evictions + c.dirtyCount ≤ c.stat_store_hits + c.stat_store_misses ∧
      c.stat_store_hits + c.stat_store_misses =
        storeCount [⟨1, 0x0, 1⟩, ⟨0, 0x400, 1⟩, ⟨0, 0x400, 1⟩] ∧
      c.stat_dirty_evictions ≤ storeCount [⟨1, 0x0, 1⟩, ⟨0, 0x400, 1⟩, ⟨0, 0x400, 1⟩] ∧
      ((∀ r ∈ ([⟨1, 0x0, 1⟩, ⟨0, 0x400, 1⟩, ⟨0, 0x400, 1⟩] : List TraceRecord),
          r.loadstore = 0) → c.stat_dirty_evictions = 0)) ∧
    ((∀ r ∈ ([⟨1, 0x0, 1⟩, ⟨0, 0x400, 1⟩, ⟨0, 0x400, 1⟩] : List TraceRecord),
        freshDirectMapped.AccessInBounds (r.address % 4294967296)) →
      ∃ c, driverLoop freshDirectMapped [⟨1, 0x0, 1⟩, ⟨0, 0x400, 1⟩, ⟨0, 0x400, 1⟩] = some c)) :=
  ⟨by decide, by decide,
    dirty_evictions_bounded_by_stores 32 1 32 1 30 2 freshDirectMapped (by decide) _⟩

/-! ## Direct-mapped caches refine the reference model -/

theorem log2Fuel_pow : ∀ (fuel k : Nat), k ≤ fuel → log2Fuel fuel (2 ^ k) = k := by
  intro fuel
  induction fuel with
  | zero =>
    intro k hk
    have : k = 0 := by omega
    subst this
    rfl
  | succ fuel ih =>
    intro k hk
    cases k with
    | zero => simp [log2Fuel]
    | succ k =>
      have h2 : ¬ (2 ^ (k + 1) < 2) := by
        have : 1 ≤ 2 ^ k := Nat.one_le_two_pow
        rw [pow_succ]
        omega
      have hdiv : 2 ^ (k + 1) / 2 = 2 ^ k := by
        rw [pow_succ]
        simp
      unfold log2Fuel
      rw [if_neg h2, hdiv, ih k (by omega)]

theorem toInt32_inj (m n : Nat) (hm : m < 4294967296) (hn : n < 4294967296)
    (h : toInt32 m = toInt32 n) : m = n := by
  unfold toInt32 at h
  rw [Nat.mod_eq_of_lt hm, Nat.mod_eq_of_lt hn] at h
  split_ifs at h <;> omega

theorem blockNumber_lt (ob a : Nat) (ha : a < 4294967296) : blockNumber ob a < 4294967296 := by
  unfold blockNumber
  rw [Nat.shiftRight_eq_div_pow]
  exact lt_of_le_of_lt (Nat.div_le_self _ _) ha

/-- Address decomposition of a state with `2 ^ k` blocks, offset shift `ob` and tag shift
`k + ob`. -/
theorem decompose_pow_two (c : CacheSimulator) (k ob : Nat) (hk : k < 31) (hob : ob < 32)
    (hkob : k + ob < 32) (hnb : c.num_blocks = 2 ^ k) (hoff : c.num_offset_bits = ob)
    (htm : c.tag_mask = ((k + ob : Nat) : Int)) (a : Nat) :
    c.get_index_bits a = some ((blockNumber ob a % 2 ^ k : Nat) : Int) ∧
      c.get_tag_bits a = some (toInt32 (blockNumber ob a / 2 ^ k)) := by
  have hpow : (2 : Nat) ^ k < 2147483648 := by
    have : (2 : Nat) ^ k < 2 ^ 31 := Nat.pow_lt_pow_right (by norm_num) hk
    norm_num at this
    exact this
  have hpos : 1 ≤ (2 : Nat) ^ k := Nat.one_le_two_pow
  constructor
  · unfold CacheSimulator.get_index_bits
    rw [if_pos (by rw [hoff]; omega), hoff, hnb]
    have hm : toUInt32 ((2 : Int) ^ k - 1) = 2 ^ k - 1 := by
      have hc : ((2 : Int) ^ k - 1) = ((2 ^ k - 1 : Nat) : Int) := by
        push_cast [Nat.cast_sub hpos]
        ring
      have hn : (2 : Nat) ^ k - 1 < 4294967296 := by omega
      rw [hc]
      generalize (2 : Nat) ^ k - 1 = n at hn
      unfold toUInt32
      rw [Int.emod_eq_of_lt (by omega) (by omega)]
      exact Int.toNat_natCast n
    rw [hm, Int.toNat_natCast, Nat.and_pow_two_sub_one_eq_mod]
    have hlt : (a >>> ob) % 2 ^ k < 2147483648 :=
      lt_of_lt_of_le (Nat.mod_lt _ (by omega)) (le_of_lt hpow)
    rw [toInt32_of_lt _ hlt]
    rfl
  · unfold CacheSimulator.get_tag_bits
    rw [if_pos (by rw [htm]; omega), htm, Int.toNat_natCast]
    have : a >>> (k + ob) = blockNumber ob a / 2 ^ k := by
      unfold blockNumber
      rw [Nat.add_comm, Nat.shiftRight_add, Nat.shiftRight_eq_div_pow (a >>> ob) k]
    rw [this]

/-- The configuration that the constructor derives for associativity 1 when the number of blocks
is `2 ^ k`. -/
theorem construct_pow_two (g bs cs mp dwp : Int) (c0 : CacheSimulator)
    (hc : CacheSimulator.construct g 1 bs cs mp dwp = some c0) (k : Nat)
    (hpow : c0.num_blocks = 2 ^ k) :
    k < 31 ∧ k + c0.num_offset_bits.toNat < 32 ∧
      c0.tag_mask = ((k + c0.num_offset_bits.toNat : Nat) : Int) := by
  have hw := construct_wellFormed g 1 bs cs mp dwp c0 hc
  obtain ⟨-, -, -, -, -, -, enb, -, eob, -, etm, -⟩ := construct_fields g 1 bs cs mp dwp c0 hc
  have hk : k < 31 := by
    apply pow_two_lt_bound
    rw [← hpow]
    exact hw.blocks_lt
  have hlog : ilog2 (Int.tdiv (Int.tdiv (1024 * cs) g) 1) = (k : Int) := by
    rw [Int.tdiv_one, ← enb, hpow]
    unfold ilog2
    have : ((2 : Int) ^ k).toNat = 2 ^ k := by
      have hc : ((2 : Int) ^ k) = ((2 ^ k : Nat) : Int) := by push_cast; rfl
      rw [hc, Int.toNat_natCast]
    rw [this, log2Fuel_pow 32 k (by omega)]
  have h1 := hw.offset_ok
  have h2 := hw.tag_ok
  rw [etm, hlog] at h2
  rw [eob] at h1
  refine ⟨hk, ?_, ?_⟩
  · rw [eob]
    omega
  · rw [etm, hlog, eob]
    push_cast
    omega

theorem referenceHit_cons_congruent (nb ob : Nat) (history : List Nat) (x a : Nat)
    (h : blockNumber ob x % nb = blockNumber ob a % nb) :
    referenceHit nb ob (x :: history) a = decide (blockNumber ob x = blockNumber ob a) := by
  unfold referenceHit
  rw [List.find?_cons]
  simp [h]

theorem referenceHit_cons_other (nb ob : Nat) (history : List Nat) (x a : Nat)
    (h : blockNumber ob x % nb ≠ blockNumber ob a % nb) :
    referenceHit nb ob (x :: history) a = referenceHit nb ob history a := by
  unfold referenceHit
  rw [List.find?_cons]
  simp [h]

theorem eq_of_mod_div_eq (m n d : Nat) (h1 : m % d = n % d) (h2 : m / d = n / d) : m = n := by
  rw [← Nat.div_add_mod m d, ← Nat.div_add_mod n d, h1, h2]

/-- One direct-mapped access reports what the reference model says and keeps the state in
agreement with the extended history. -/
theorem agreesWithHistory_step (c : CacheSimulator) (k ob : Nat) (history : List Nat) (x : Nat)
    (hx : x < 4294967296) (hJ : AgreesWithHistory k ob c history)
    (ha : c.associativity = 1) (type : Int) (c1 : CacheSimulator) (hit dwb : Bool) (slot : Int)
    (hs : AccessSpec c type (toInt32 (blockNumber ob x / 2 ^ k))
      ((blockNumber ob x % 2 ^ k : Nat) : Int) c1 hit dwb slot) :
    hit = referenceHit (2 ^ k) ob history x ∧ AgreesWithHistory k ob c1 (x :: history) := by
  have hslot : slot = ((blockNumber ob x % 2 ^ k : Nat) : Int) := by
    have := hs.range
    omega
  subst hslot
  have hlive := accessSpec_live _ _ _ _ _ _ _ _ hs
  constructor
  · rcases hs.cases with ⟨hh, -, hl, -⟩ | ⟨hh, hnone, -⟩
    · rw [hh, (hJ x hx).mp hl]
    · have hnl := hnone _ (le_refl _) (by omega)
      rw [hh]
      cases hr : referenceHit (2 ^ k) ob history x with
      | false => rfl
      | true => exact absurd ((hJ x hx).mpr hr) hnl
  · intro a ha32
    by_cases hcong : blockNumber ob x % 2 ^ k = blockNumber ob a % 2 ^ k
    · rw [referenceHit_cons_congruent _ _ _ _ _ hcong, ← hcong]
      constructor
      · rintro ⟨-, htag⟩
        rw [hlive.2] at htag
        simp only [Option.some.injEq] at htag
        have hdiv := toInt32_inj _ _
          (lt_of_le_of_lt (Nat.div_le_self _ _) (blockNumber_lt ob x hx))
          (lt_of_le_of_lt (Nat.div_le_self _ _) (blockNumber_lt ob a ha32)) htag
        simpa using eq_of_mod_div_eq _ _ _ hcong hdiv
      · intro hdec
        have heq : blockNumber ob x = blockNumber ob a := by simpa using hdec
        rw [← heq]
        exact hlive
    · rw [referenceHit_cons_other _ _ _ _ _ hcong]
      have hne : ((blockNumber ob a % 2 ^ k : Nat) : Int) ≠
          ((blockNumber ob x % 2 ^ k : Nat) : Int) := by
        intro e
        exact hcong (by exact_mod_cast e.symm)
      obtain ⟨o1, o2, -⟩ := accessSpec_other_slot _ _ _ _ _ _ _ _ _ hs hne
      unfold Live
      rw [o1, o2]
      exact hJ a ha32

theorem simulatorHits_agree (c0 : CacheSimulator) (hw0 : WellFormed c0)
    (ha0 : c0.associativity = 1) (k ob : Nat) (hk : k < 31) (hob : ob < 32)
    (hkob : k + ob < 32) (hnb : c0.num_blocks = 2 ^ k) (hoff : c0.num_offset_bits = ob)
    (htm : c0.tag_mask = ((k + ob : Nat) : Int)) :
    ∀ (trace : List TraceRecord) (c : CacheSimulator) (history : List Nat), SameShape c0 c →
      AgreesWithHistory k ob c history →
      simulatorHits c trace =
        some (referenceHits (2 ^ k) ob history
          (trace.map (fun r => r.address % 4294967296))) := by
  intro trace
  induction trace with
  | nil =>
    intro c history _ _
    rfl
  | cons r rest ih =>
    intro c history hsh hJ
    have hx : r.address % 4294967296 < 4294967296 := Nat.mod_lt _ (by norm_num)
    have hwc := wellFormed_of_sameShape c0 c hw0 hsh
    have hac : c.associativity = 1 := hsh.1.trans ha0
    obtain ⟨d1, d2⟩ := sameShape_decompose c0 c (r.address % 4294967296) hsh
    obtain ⟨f1, f2⟩ := decompose_pow_two c0 k ob hk hob hkob hnb hoff htm
      (r.address % 4294967296)
    obtain ⟨index, tag, hi, ht, hb⟩ := direct_mapped_in_bounds c hwc hac (r.address % 4294967296)
    have hi' := d1.trans f1
    have ht' := d2.trans f2
    rw [hi'] at hi
    rw [ht'] at ht
    simp only [Option.some.injEq] at hi ht
    subst hi
    subst ht
    obtain ⟨c1, hit, dwb, slot, hcore, hs⟩ :=
      instructionCore_spec c r.loadstore (r.address % 4294967296) _ _ hi' ht' hb (by omega)
    have hins := instruction_of_core _ _ _ _ _ _ _ hcore
    obtain ⟨hhit, hJ1⟩ := agreesWithHistory_step c k ob history _ hx hJ hac r.loadstore c1 hit
      dwb slot hs
    obtain ⟨u1, u2, -⟩ := update_statistics_vectors c1 r.loadstore r.icount hit dwb
    have hJ1s : AgreesWithHistory k ob (c1.update_statistics r.loadstore r.icount hit dwb)
        ((r.address % 4294967296) :: history) := by
      unfold AgreesWithHistory
      rw [u1, u2]
      exact hJ1
    have hsh1s : SameShape c0 (c1.update_statistics r.loadstore r.icount hit dwb) :=
      sameShape_trans _ _ _ (sameShape_trans _ _ _ hsh (accessSpec_sameShape _ _ _ _ _ _ _ _ hs))
        (update_statistics_sameShape _ _ _ _ _)
    have hrest := ih _ _ hsh1s hJ1s
    unfold simulatorHits at hrest ⊢
    cases hout : driverOutcomes (c1.update_statistics r.loadstore r.icount hit dwb) rest with
    | none => simp [hout] at hrest
    | some outs =>
      rw [hout] at hrest
      simp only [Option.map_some', Option.some.injEq] at hrest
      simp only [driverOutcomes, hins, hout, Option.map_some', List.map_cons, referenceHits,
        hrest]
      rw [hhit]

/-- C19: for a freshly constructed direct-mapped simulator whose number of blocks is a power of
two, the hit flags reported along any trace (addresses taken as 32-bit values) are those of the
textbook direct-mapped reference model: an access hits iff the most recent earlier access with a
block number congruent modulo `num_blocks` exists and has the same block number. -/
theorem direct_mapped_refines_reference (g bs cs mp dwp : Int) (c0 : CacheSimulator)
    (hc : CacheSimulator.construct g 1 bs cs mp dwp = some c0) (k : Nat)
    (hpow : c0.num_blocks = 2 ^ k) (trace : List TraceRecord) :
    simulatorHits c0 trace =
      some (referenceHits c0.num_blocks.toNat c0.num_offset_bits.toNat []
        (trace.map (fun r => r.address % 4294967296))) := by
  have hw := construct_wellFormed g 1 bs cs mp dwp c0 hc
  obtain ⟨-, ea, -, -, -, -, -, -, -, -, -, -, ev, -, -, -⟩ :=
    construct_fields g 1 bs cs mp dwp c0 hc
  obtain ⟨hk, hkob, htm⟩ := construct_pow_two g bs cs mp dwp c0 hc k hpow
  have hoff : c0.num_offset_bits = ((c0.num_offset_bits.toNat : Nat) : Int) := by
    have := hw.offset_ok
    omega
  have hnbnat : c0.num_blocks.toNat = 2 ^ k := by
    rw [hpow]
    have hcast : ((2 : Int) ^ k) = ((2 ^ k : Nat) : Int) := by push_cast; rfl
    rw [hcast, Int.toNat_natCast]
  have hinit : AgreesWithHistory k c0.num_offset_bits.toNat c0 [] := by
    intro a _
    constructor
    · rintro ⟨⟨v, hv, hne⟩, -⟩
      rw [ev] at hv
      exact absurd (rd_replicate_zero _ _ _ hv) hne
    · intro h
      simp [referenceHit] at h
  rw [hnbnat]
  exact simulatorHits_agree c0 hw ea k c0.num_offset_bits.toNat hk (by omega) hkob hpow hoff htm
    trace c0 [] ⟨rfl, rfl, rfl, rfl, rfl, rfl, rfl, rfl⟩ hinit

/-- C19 at the direct-mapped example (32 blocks of 32 bytes): `0x0` misses, hits, is displaced
by `0x400` (same slot, other block), and misses again. -/
theorem direct_mapped_refines_reference_witness :
    CacheSimulator.construct 32 1 32 1 30 2 = some freshDirectMapped ∧
    freshDirectMapped.num_blocks = 2 ^ 5 ∧
    referenceHits 32 5 [] [0x0, 0x0, 0x400, 0x0, 0x20] = [false, true, false, false, false] ∧
    simulatorHits freshDirectMapped [⟨0, 0x0, 1⟩, ⟨1, 0x0, 1⟩, ⟨0, 0x400, 1⟩, ⟨0, 0x0, 1⟩,
        ⟨0, 0x20, 1⟩] =
      some (referenceHits freshDirectMapped.num_blocks.toNat
        freshDirectMapped.num_offset_bits.toNat []
        (([⟨0, 0x0, 1⟩, ⟨1, 0x0, 1⟩, ⟨0, 0x400, 1⟩, ⟨0, 0x0, 1⟩, ⟨0, 0x20, 1⟩] :
          List TraceRecord).map (fun r => r.address % 4294967296))) :=
  ⟨by decide, by decide, by decide,
    direct_mapped_refines_reference 32 32 1 30 2 freshDirectMapped (by decide) 5 (by decide) _⟩
